import Mathlib

/-! # DoomRunner: engine traits

A shallow embedding of `Sources/EngineTraits.hpp` and `Sources/EngineTraits.cpp`:
the engine families and their tables, the binding of family traits, and the
deduction of command line arguments.

Conventions of the embedding

* `QString` is a Lean `String`, `QStringVec` and `QStringList` are `List String`.
* A C++ `enum class` is an integer with named constants, so it is a structure around
  its underlying `int` value; the C++ `int` itself is an `Int` that lies in the range
  described by `isInt`.
* `IS_WINDOWS` is a macro of `Essential.hpp`; every definition that depends on it takes
  it as a parameter.
* A member function guarded by `assert( hasAppInfo() ... )` returns `none` when the
  asserted precondition does not hold.
-/

namespace DoomRunner

/-! ## Machine integers -/

/-- The values of a C++ `int` (32 bits, two's complement). -/
def isInt (v : Int) : Prop := -2147483648 ≤ v ∧ v ≤ 2147483647

instance (v : Int) : Decidable (isInt v) := by
  unfold isInt
  exact inferInstance

/-- The conversion `size_t( v )` of a signed value: reduction modulo `2^64`. -/
def size_t (v : Int) : Nat := (v % 18446744073709551616).toNat

/-- The result of `int` arithmetic brought back into the range of `int`. Overflow of a
signed addition is undefined in C++; the two's complement result stands in for it, and the
statements about sums assume that the sum is in range. -/
def wrapInt (v : Int) : Int := (v + 2147483648) % 4294967296 - 2147483648

/-! ## Enumerations of `EngineTraits.hpp` -/

/-- The enumeration `enum class MapParamStyle`. -/
structure MapParamStyle where
  val : Int
deriving DecidableEq, Repr

namespace MapParamStyle

/-- Style `-warp 1 8`. -/
def Warp : MapParamStyle := ⟨0⟩

/-- Style `+map E1M8`. -/
def Map : MapParamStyle := ⟨1⟩

end MapParamStyle

/-- The enumeration `enum class CompatLevelStyle`. -/
structure CompatLevelStyle where
  val : Int
deriving DecidableEq, Repr

namespace CompatLevelStyle

def None : CompatLevelStyle := ⟨0⟩

def ZDoom : CompatLevelStyle := ⟨1⟩

def PrBoom : CompatLevelStyle := ⟨2⟩

end CompatLevelStyle

/-- The enumeration `enum class EngineFamily`. -/
structure EngineFamily where
  val : Int
deriving DecidableEq, Repr

namespace EngineFamily

def ZDoom : EngineFamily := ⟨0⟩

def PrBoom : EngineFamily := ⟨1⟩

/-- Marine's Best Friend -/
def MBF : EngineFamily := ⟨2⟩

def ChocolateDoom : EngineFamily := ⟨3⟩

/-- Indicates an error. -/
def _EnumEnd : EngineFamily := ⟨4⟩

/-- The four enumerators in front of `_EnumEnd`. -/
def isValid (f : EngineFamily) : Prop :=
  f = ZDoom ∨ f = PrBoom ∨ f = MBF ∨ f = ChocolateDoom

instance (f : EngineFamily) : Decidable (isValid f) := by
  unfold isValid
  exact inferInstance

end EngineFamily

/-! ## Engine definitions -/

def engineFamilyStrings : List String :=
  [ "ZDoom",
    "PrBoom",
    "MBF",
    "ChocolateDoom" ]

/-- Modelled from the spec: `find` of `Utils/ContainerUtils.hpp` is not among the sources.
Its caller `familyFromStr` takes a result `>= 0` as the index of the string that was found
and any other result as "unrecognized string"; the search walks the list from the front and
gives the index of the first element equal to `elem`, `-1` when there is none. -/
def findFrom : List String → String → Int → Int
  | [], _, _ => -1
  | x :: xs, elem, idx => if x = elem then idx else findFrom xs elem (idx + 1)

/-- Modelled from the spec: `find( list, elem )` of `Utils/ContainerUtils.hpp`, see `findFrom`. -/
def find (list : List String) (elem : String) : Int := findFrom list elem 0

def familyToStr (family : EngineFamily) : String :=
  if size_t family.val < engineFamilyStrings.length then
    engineFamilyStrings.getD (size_t family.val) "<invalid>"
  else
    "<invalid>"

def familyFromStr (familyStr : String) : EngineFamily :=
  let idx := find engineFamilyStrings familyStr
  if idx ≥ 0 then
    EngineFamily.mk idx
  else
    EngineFamily._EnumEnd

/-- The keys are executable names in lower case without the .exe suffix. A `QHash` built
from a list of distinct keys; `find` is the lookup of a key. -/
def knownEngineFamilies : List (String × EngineFamily) :=
  [ ("zdoom",            EngineFamily.ZDoom),
    ("lzdoom",           EngineFamily.ZDoom),
    ("gzdoom",           EngineFamily.ZDoom),
    ("qzdoom",           EngineFamily.ZDoom),
    ("skulltag",         EngineFamily.ZDoom),
    ("zandronum",        EngineFamily.ZDoom),
    ("prboom",           EngineFamily.PrBoom),
    ("prboom-plus",      EngineFamily.PrBoom),
    ("glboom",           EngineFamily.PrBoom),
    ("dsda-doom",        EngineFamily.PrBoom),
    ("smmu",             EngineFamily.MBF),
    ("eternity",         EngineFamily.MBF),
    ("woof",             EngineFamily.MBF),
    ("chocolate-doom",   EngineFamily.ChocolateDoom),
    ("crispy-doom",      EngineFamily.ChocolateDoom),
    ("doomretro",        EngineFamily.ChocolateDoom),
    ("strife-ve",        EngineFamily.ChocolateDoom) ]

/-- Traits that are shared among different engines belonging to the same family. -/
structure EngineFamilyTraits where
  mapParamStyle : MapParamStyle
  compLvlStyle : CompatLevelStyle
  saveDirParam : String
  hasScreenshotDirParam : Bool
  needsStdoutParam : Bool
deriving DecidableEq, Repr

def engineFamilyTraits (IS_WINDOWS : Bool) : List EngineFamilyTraits :=
  [ /-ZDoom-/     ⟨MapParamStyle.Map,  CompatLevelStyle.ZDoom,  "-savedir", true,  IS_WINDOWS⟩,
    /-PrBoom-/    ⟨MapParamStyle.Warp, CompatLevelStyle.PrBoom, "-save",    false, false⟩,
    /-MBF-/       ⟨MapParamStyle.Warp, CompatLevelStyle.PrBoom, "-save",    false, false⟩,
    /-Chocolate-/ ⟨MapParamStyle.Warp, CompatLevelStyle.None,   "-savedir", false, false⟩ ]

/-! ## Executable identity (`os::AppInfo`) -/

/-- Modelled from the spec: `Version` of `CommonTypes.hpp` is not among the sources; the
spec describes it as an ordered triple (major, minor, patch). -/
structure Version where
  major : Nat
  minor : Nat
  patch : Nat
deriving DecidableEq, Repr

/-- Modelled from the spec: the version metadata of `os::AppInfo` (`Utils/OSUtils.hpp`, not
among the sources), with the members read through `exeAppName`, `exeDescription` and
`exeVersion`. -/
structure AppVersionInfo where
  appName : String
  description : String
  version : Version
deriving DecidableEq, Repr

/-- Modelled from the spec: the sandbox descriptor of `os::AppInfo`, with the members read
through `sandboxType`, `sandboxAppName` and `sandboxHomeDir`; the kind of sandbox is an
enumeration whose declaration is not among the sources, kept as its integer value. -/
structure SandboxEnvInfo where
  type : Int
  appName : String
  homeDir : String
deriving DecidableEq, Repr

/-- Modelled from the spec: `os::AppInfo` of `Utils/OSUtils.hpp`, with the members that the
accessors of `EngineTraits` read. -/
structure AppInfo where
  exePath : String
  exeBaseName : String
  sandboxEnv : SandboxEnvInfo
  versionInfo : AppVersionInfo
  displayName : String
  normalizedName : String
deriving DecidableEq, Repr

namespace os

/-- The part of `s` behind the last `sep`, all of `s` when there is no `sep`. -/
def afterLast (sep : Char) : List Char → List Char
  | [] => []
  | c :: cs => if sep ∈ cs then afterLast sep cs else if c = sep then cs else c :: cs

/-- The part of `s` in front of the last `sep`, all of `s` when there is no `sep`. -/
def beforeLast (sep : Char) : List Char → List Char
  | [] => []
  | c :: cs => if sep ∈ cs then c :: beforeLast sep cs else if c = sep then [] else c :: cs

/-- Modelled from the spec: `fs::getFileBasenameFromPath` of `Utils/FileSystemUtils.hpp` is
not among the sources. The spec speaks of "the executable's base file name ... extension
stripped": the last component of the path without its extension. -/
def getFileBasenameFromPath (path : String) : String :=
  String.mk (beforeLast '.' (afterLast '/' path.data))

/-- Modelled from the spec: `QString::toLower` on the names the spec calls "lowercased";
the letters `A` to `Z` are replaced, every other character is kept. -/
def toLower (s : String) : String := String.mk (s.data.map Char.toLower)

/-- Modelled from the spec: `os::loadAppInfo` of `Utils/OSUtils.cpp` is not among the
sources. The spec defines the normalized name as "the executable's base file name,
lowercased, extension stripped, used as the key for all name-based lookups". What the
loader reads from the file and its surroundings (sandbox, version metadata, display name)
is passed in. -/
def loadAppInfo (executablePath : String) (sandboxEnv : SandboxEnvInfo)
    (versionInfo : AppVersionInfo) (displayName : String) : AppInfo :=
  { exePath := executablePath
    exeBaseName := getFileBasenameFromPath executablePath
    sandboxEnv := sandboxEnv
    versionInfo := versionInfo
    displayName := displayName
    normalizedName := toLower (getFileBasenameFromPath executablePath) }

end os

/-! ## Regular expressions and number formatting (Qt)

The two patterns of the source, `E(\d+)M(\d+)` and `MAP(\d+)`, are sequences of literal
characters and of the capture group `(\d+)`. `QRegularExpression::match` looks for the
leftmost position at which the pattern matches; a quantifier is greedy and gives characters
back one at a time when the rest of the pattern does not match. Without the option
`UseUnicodePropertiesOption`, `\d` stands for the ASCII digits. -/

/-- One element of a pattern. -/
inductive RegexItem where
  /-- A literal character. -/
  | lit (c : Char)
  /-- The capture group `(\d+)`. -/
  | digits
deriving DecidableEq, Repr

/-- The first success among `k n`, `k (n - 1)`, ..., `k 1`. -/
def firstFromDown {α : Type} (k : Nat → Option α) : Nat → Option α
  | 0 => none
  | n + 1 =>
    match k (n + 1) with
    | some r => some r
    | none => firstFromDown k n

/-- Match of the pattern at the very start of `s` (the match may end before the end of
`s`). The result lists the captured groups in the order of the pattern. A group `(\d+)`
first takes the whole run of digits in front of it and then shorter and shorter parts of
the run, down to one digit, until the rest of the pattern matches. -/
def matchHere : List RegexItem → List Char → Option (List String)
  | [], _ => some []
  | RegexItem.lit c :: rest, s =>
    match s with
    | [] => none
    | x :: xs => if x = c then matchHere rest xs else none
  | RegexItem.digits :: rest, s =>
    firstFromDown
      (fun n => (matchHere rest (s.drop n)).map (fun groups => String.mk (s.take n) :: groups))
      (s.takeWhile Char.isDigit).length

/-- The leftmost match of the pattern in `s`: the start positions are tried from the left. -/
def searchFrom (re : List RegexItem) : List Char → Option (List String)
  | [] => matchHere re []
  | c :: cs =>
    match matchHere re (c :: cs) with
    | some groups => some groups
    | none => searchFrom re cs

/-- The type `QRegularExpressionMatch`, reduced to what the source reads from it: `none` when
`hasMatch()` is false, else the captured groups 1, 2, ... -/
abbrev QRegularExpressionMatch := Option (List String)

/-- The call `re.match( subject )`. -/
def QRegularExpression_match (re : List RegexItem) (subject : String) : QRegularExpressionMatch :=
  searchFrom re subject.data

/-- The call `match.captured( n )` for `n >= 1` on a successful match; a group that does not exist
gives the null string. -/
def captured (groups : List String) (n : Nat) : String := groups.getD (n - 1) ""

/-- The call `QString::number( int )`: the decimal numeral, with a leading `-` for a negative value. -/
def QString_number (n : Int) : String := toString n

/-! ## EngineTraits -/

/-- Properties and capabilities of a particular engine that decide what command-line
parameters will be used. `_familyTraits` is a pointer that is null or points to a row of
`engineFamilyTraits`: `none` or the index of the row. -/
structure EngineTraits where
  _appInfo : Option AppInfo
  _familyTraits : Option (Fin 4)
deriving DecidableEq, Repr

namespace EngineTraits

/-- A freshly constructed object: no application info, `_familyTraits = nullptr`. -/
def init : EngineTraits := ⟨none, none⟩

/-- Initializes application info. -/
def loadAppInfo (et : EngineTraits) (executablePath : String) (sandboxEnv : SandboxEnvInfo)
    (versionInfo : AppVersionInfo) (displayName : String) : EngineTraits :=
  { et with _appInfo := some (os.loadAppInfo executablePath sandboxEnv versionInfo displayName) }

def hasAppInfo (et : EngineTraits) : Bool := et._appInfo.isSome

def hasFamilyTraits (et : EngineTraits) : Bool := et._familyTraits.isSome

/-- The row `*_familyTraits` points to. -/
def familyTraits (IS_WINDOWS : Bool) (et : EngineTraits) : Option EngineFamilyTraits :=
  et._familyTraits.bind (fun i => (engineFamilyTraits IS_WINDOWS)[i.val]?)

def exeBaseName (et : EngineTraits) : Option String := et._appInfo.map (·.exeBaseName)

def normalizedName (et : EngineTraits) : Option String := et._appInfo.map (·.normalizedName)

def guessEngineFamily (et : EngineTraits) : Option EngineFamily :=
  match et._appInfo with
  | none => none
  | some appInfo =>
    match knownEngineFamilies.lookup appInfo.normalizedName with
    | some family => some family
    | none => some EngineFamily.ZDoom

def assignFamilyTraits (et : EngineTraits) (family : EngineFamily) : EngineTraits :=
  if h : size_t family.val < 4 then
    { et with _familyTraits := some ⟨size_t family.val, h⟩ }
  else
    { et with _familyTraits := some ⟨0, by decide⟩ }  -- use ZDoom traits as fallback

end EngineTraits

/-- The automatic detection of the family for the executable at `executablePath`:
`loadAppInfo` on a fresh object followed by `guessEngineFamily`. -/
def guessFamilyOfPath (executablePath : String) (sandboxEnv : SandboxEnvInfo)
    (versionInfo : AppVersionInfo) (displayName : String) : Option EngineFamily :=
  (EngineTraits.init.loadAppInfo executablePath sandboxEnv versionInfo
    displayName).guessEngineFamily

/-- The pattern `E(\d+)M(\d+)`. -/
def doom1MapNameRegex : List RegexItem :=
  [RegexItem.lit 'E', RegexItem.digits, RegexItem.lit 'M', RegexItem.digits]

/-- The pattern `MAP(\d+)`. -/
def doom2MapNameRegex : List RegexItem :=
  [RegexItem.lit 'M', RegexItem.lit 'A', RegexItem.lit 'P', RegexItem.digits]

/-! ### The naming conventions of maps, as the specification words them -/

/-- A run of one or more ASCII digits. -/
def isDigits (ds : List Char) : Prop := ds ≠ [] ∧ ∀ c ∈ ds, c.isDigit = true

instance (ds : List Char) : Decidable (isDigits ds) := by
  unfold isDigits
  exact inferInstance

/-- The form `E<episode digits>M<map digits>`. -/
def isExMy (name : List Char) : Prop :=
  ∃ episode map, isDigits episode ∧ isDigits map ∧ name = 'E' :: episode ++ 'M' :: map

/-- The form `MAP<nn>`. -/
def isMAPnn (name : List Char) : Prop :=
  ∃ number, isDigits number ∧ name = 'M' :: 'A' :: 'P' :: number

/-- Some part of `name` has the given form. -/
def occursIn (form : List Char → Prop) (name : List Char) : Prop :=
  ∃ before part after, form part ∧ name = before ++ part ++ after

namespace EngineTraits

/-- Generates either "-warp 2 5" or "+map E2M5" depending on the engine capabilities. -/
def getMapArgs (IS_WINDOWS : Bool) (et : EngineTraits) (mapIdx : Int) (mapName : String) :
    Option (List String) :=
  match et._appInfo, et.familyTraits IS_WINDOWS with
  | some _, some traits =>
    if mapName.length = 0 then
      some []
    else if traits.mapParamStyle = MapParamStyle.Map then
      -- this engine supports +map, we can use the map name directly
      some ["+map", mapName]
    else
      -- this engine only supports the old -warp, we must deduce map number
      match QRegularExpression_match doom1MapNameRegex mapName with
      | some groups => some ["-warp", captured groups 1, captured groups 2]
      | none =>
        match QRegularExpression_match doom2MapNameRegex mapName with
        | some groups => some ["-warp", captured groups 1]
        | none => some ["-warp", QString_number (wrapInt (mapIdx + 1))]
  | _, _ => none

end EngineTraits

/-! ## Compatibility levels and monitor indexes -/

/-- The key is an executable name in lower case without the .exe suffix. A `QHash` built
from a list of distinct keys; `find` is the lookup of a key. -/
def startingMonitorIndexes : List (String × Int) :=
  [ ("zdoom", 1) ]

def zdoomCompatLevels : List String :=
  [ "0 - Default",
    "1 - Doom",
    "2 - Doom (Strict)",
    "3 - Boom",
    "4 - ZDoom 2.0.63",
    "5 - MBF",
    "6 - Boom (Strict)",
    "7 - MBF (Strict)",
    "8 - MBF 21",
    "9 - MBF 21 (Strict)" ]

def prboomCompatLevels : List String :=
  [ "0  - Doom v1.2",
    "1  - Doom v1.666",
    "2  - Doom v1.9",
    "3  - Ultimate Doom",
    "4  - Final Doom & Doom95",
    "5  - DOSDoom",
    "6  - TASDOOM",
    "7  - Boom's inaccurate vanilla",
    "8  - Boom v2.01",
    "9  - Boom v2.02",
    "10 - LxDoom",
    "11 - MBF",
    "12 - PrBoom (older version)",
    "13 - PrBoom (older version)",
    "14 - PrBoom (older version)",
    "15 - PrBoom (older version)",
    "16 - PrBoom (older version)",
    "17 - PrBoom (current)",
    "18 - unused",
    "19 - unused",
    "20 - unused",
    "21 - MBF21" ]

def noCompatLevels : List String := []

def getCompatLevels (style : CompatLevelStyle) : List String :=
  if style = CompatLevelStyle.ZDoom then
    zdoomCompatLevels
  else if style = CompatLevelStyle.PrBoom then
    prboomCompatLevels
  else
    noCompatLevels

namespace EngineTraits

/-- Generates either "-complevel x" or "+compatmode x" depending on the engine
capabilities. -/
def getCompatLevelArgs (IS_WINDOWS : Bool) (et : EngineTraits) (compatLevel : Int) :
    Option (List String) :=
  match et._appInfo, et.familyTraits IS_WINDOWS with
  | some appInfo, some traits =>
    -- Properly working -compatmode is present only in GZDoom,
    -- for other ZDoom-based engines use at least something, even if it doesn't fully work.
    if appInfo.exeBaseName = "gzdoom" ∨ appInfo.exeBaseName = "vkdoom" then
      some ["-compatmode", QString_number compatLevel]
    else if traits.compLvlStyle = CompatLevelStyle.ZDoom then
      some ["+compatmode", QString_number compatLevel]
    else if traits.compLvlStyle = CompatLevelStyle.PrBoom then
      some ["-complevel", QString_number compatLevel]
    else
      some []
  | _, _ => none

/-- Some engines index monitors from 1 and others from 0. -/
def getCmdMonitorIndex (IS_WINDOWS : Bool) (et : EngineTraits) (ownIndex : Int) :
    Option String :=
  match et._appInfo, et.familyTraits IS_WINDOWS with
  | some appInfo, some _ =>
    let startingMonitorIndex : Int :=
      match startingMonitorIndexes.lookup appInfo.exeBaseName with
      | some index => index
      | none => 0
    some (QString_number (wrapInt (startingMonitorIndex + ownIndex)))
  | _, _ => none

end EngineTraits

/-! ## Default directories and path requirements -/

/-- Modelled from the spec: the comparison of `Version` (`CommonTypes.hpp`, not among the
sources). The spec describes a version as an "ordered triple (major, minor, patch) with
total-order comparison": `a ≤ b` compares the major numbers first, then the minor numbers,
then the patch numbers. -/
instance : LE Version where
  le a b :=
    a.major < b.major ∨
    (a.major = b.major ∧ (a.minor < b.minor ∨ (a.minor = b.minor ∧ a.patch ≤ b.patch)))

instance (a b : Version) : Decidable (a ≤ b) := by
  show Decidable (a.major < b.major ∨
    (a.major = b.major ∧ (a.minor < b.minor ∨ (a.minor = b.minor ∧ a.patch ≤ b.patch))))
  exact inferInstance

/-- Modelled from the spec: what `EngineTraits.cpp` asks of `Utils/OSUtils` and
`Utils/FileSystemUtils`, which are not among the sources. The spec names them as the
platform's Documents, "saved games" and Pictures special folders, the "standard
per-application configuration directory, derived from the executable's identity", the
executable's own directory and the check for a "sibling marker file". They are inputs of
the directory queries. -/
structure Host where
  /-- The result of `os::getDocumentsDir()`. -/
  getDocumentsDir : String
  /-- The result of `os::getSavedGamesDir()`. -/
  getSavedGamesDir : String
  /-- The result of `os::getPicturesDir()`. -/
  getPicturesDir : String
  /-- The function `os::getConfigDirForApp( exePath )`. -/
  getConfigDirForApp : String → String
  /-- The function `fs::getParentDir( path )`. -/
  getParentDir : String → String
  /-- The function `fs::getPathFromEntryName( dir, entryName )`. -/
  getPathFromEntryName : String → String → String
  /-- The function `fs::isValidFile( path )`. -/
  isValidFile : String → Bool

namespace EngineTraits

/-- The enumeration `enum class SaveBaseDir`. -/
structure SaveBaseDir where
  val : Int
deriving DecidableEq, Repr

/-- Path of save file must be relative to the current working directory. -/
def SaveBaseDir.WorkingDir : SaveBaseDir := ⟨0⟩

/-- Path of save file must be relative to the -savedir argument if present or engine's data
dir otherwise. -/
def SaveBaseDir.SaveDir : SaveBaseDir := ⟨1⟩

/-- If we have version info from the executable file, decide based on the application name
and version, otherwise if the executable file name seems like GZDoom, assume the latest
version. `versionIsValid` is `Version::isValid` of `CommonTypes.hpp`, which is not among the
sources. -/
def isGZDoomVersionOrLater (versionIsValid : Version → Bool) (et : EngineTraits)
    (atLeastVersion : Version) : Option Bool :=
  match et._appInfo with
  | none => none
  | some appInfo =>
    if appInfo.versionInfo.appName.length ≠ 0 ∧
        versionIsValid appInfo.versionInfo.version = true then
      some (decide (appInfo.versionInfo.appName = "GZDoom" ∧
        appInfo.versionInfo.version ≥ atLeastVersion))
    else
      some (decide (appInfo.normalizedName = "gzdoom"))

def getDefaultConfigDir (IS_WINDOWS : Bool) (host : Host) (versionIsValid : Version → Bool)
    (et : EngineTraits) : Option String :=
  match et._appInfo with
  | none => none
  | some appInfo =>
    if IS_WINDOWS then
      -- On Windows, engines usually store their config in the directory of its binaries,
      -- with the exception of latest GZDoom that started storing it to
      -- Documents\My Games\GZDoom
      let dirOfExecutable := host.getParentDir appInfo.exePath
      let portableIniFilePath := host.getPathFromEntryName dirOfExecutable "gzdoom_portable.ini"
      match et.isGZDoomVersionOrLater versionIsValid ⟨4, 9, 0⟩ with
      | none => none
      | some later =>
        if later = true ∧ host.isValidFile portableIniFilePath = false then
          some (host.getDocumentsDir ++ "/My Games/GZDoom")
        else
          some dirOfExecutable
    else
      -- On Linux they store them in standard user's app config dir.
      some (host.getConfigDirForApp appInfo.exePath)

def getDefaultDataDir (IS_WINDOWS : Bool) (host : Host) (versionIsValid : Version → Bool)
    (et : EngineTraits) : Option String :=
  match et._appInfo with
  | none => none
  | some appInfo =>
    if IS_WINDOWS then
      -- On Windows, engines usually store their data (saves, screenshots) in the directory
      -- of its binaries, with the exception of latest GZDoom that started storing it to
      -- Saved Games\GZDoom
      let dirOfExecutable := host.getParentDir appInfo.exePath
      let portableIniFilePath := host.getPathFromEntryName dirOfExecutable "gzdoom_portable.ini"
      match et.isGZDoomVersionOrLater versionIsValid ⟨4, 9, 0⟩ with
      | none => none
      | some later =>
        if later = true ∧ host.isValidFile portableIniFilePath = false then
          some (host.getSavedGamesDir ++ "/GZDoom")
        else
          some dirOfExecutable
    else
      -- On Linux they generally store them in the config dir.
      et.getDefaultConfigDir IS_WINDOWS host versionIsValid

def getDefaultSaveDir (IS_WINDOWS : Bool) (host : Host) (versionIsValid : Version → Bool)
    (et : EngineTraits) : Option String :=
  match et._appInfo with
  | none => none
  | some _ =>
    match et.getDefaultDataDir IS_WINDOWS host versionIsValid,
        et.isGZDoomVersionOrLater versionIsValid ⟨4, 11, 0⟩ with
    | some saveDir, some later =>
      -- since GZDoom 4.11.0, the save files are stored in a subdirectory
      if later = true then some (saveDir ++ "/savegames") else some saveDir
    | _, _ => none

def getDefaultScreenshotDir (IS_WINDOWS : Bool) (host : Host)
    (versionIsValid : Version → Bool) (et : EngineTraits) : Option String :=
  match et._appInfo with
  | none => none
  | some appInfo =>
    if IS_WINDOWS then
      let dirOfExecutable := host.getParentDir appInfo.exePath
      let portableIniFilePath := host.getPathFromEntryName dirOfExecutable "gzdoom_portable.ini"
      match et.isGZDoomVersionOrLater versionIsValid ⟨4, 9, 0⟩ with
      | none => none
      | some later =>
        if later = true ∧ host.isValidFile portableIniFilePath = false then
          some (host.getPicturesDir ++ "/Screenshots/GZDoom")
        else
          some dirOfExecutable
    else
      (et.getDefaultDataDir IS_WINDOWS host versionIsValid).map (fun dataDir =>
        dataDir ++ "/screenshots")

def baseDirStyleForSaveFiles (versionIsValid : Version → Bool) (et : EngineTraits) :
    Option SaveBaseDir :=
  match et._appInfo with
  | none => none
  | some _ =>
    match et.isGZDoomVersionOrLater versionIsValid ⟨4, 9, 0⟩ with
    | none => none
    | some later =>
      if later = true then some SaveBaseDir.SaveDir else some SaveBaseDir.WorkingDir

end EngineTraits

/-! ### The layout conditions, as the specification words them -/

/-- The portable marker file `gzdoom_portable.ini` is present in the directory of the
executable. -/
def portableMarkerPresent (host : Host) (appInfo : AppInfo) : Bool :=
  host.isValidFile
    (host.getPathFromEntryName (host.getParentDir appInfo.exePath) "gzdoom_portable.ini")

/-- The modern-layout condition: the engine is GZDoom at or above 4.9.0 and the portable
marker file is absent from the directory of the executable. -/
def modernLayout (host : Host) (versionIsValid : Version → Bool) (appInfo : AppInfo)
    (traits : Option (Fin 4)) : Prop :=
  (EngineTraits.mk (some appInfo) traits).isGZDoomVersionOrLater versionIsValid ⟨4, 9, 0⟩
      = some true ∧
    portableMarkerPresent host appInfo = false

instance (host : Host) (versionIsValid : Version → Bool) (appInfo : AppInfo)
    (traits : Option (Fin 4)) : Decidable (modernLayout host versionIsValid appInfo traits) := by
  unfold modernLayout
  exact inferInstance

/-! ### Example installations

The directories are those of the comment in front of `isGZDoomVersionOrLater` in
`EngineTraits.cpp` ("Windows - system-wide", "Linux - system-wide") and of `main.cpp`. -/

/-- A Windows host with the special folders of the user `Youda`; `markerPresent` tells
whether `gzdoom_portable.ini` exists beside the executable. -/
def exampleWindowsHost (markerPresent : Bool) : Host :=
  { getDocumentsDir := "E:/Youda/Documents"
    getSavedGamesDir := "E:/Youda/Saved Games"
    getPicturesDir := "E:/Youda/Pictures"
    getConfigDirForApp := fun _ => "E:/Youda/AppData/Local/gzdoom"
    getParentDir := fun path => String.mk (os.beforeLast '/' path.data)
    getPathFromEntryName := fun dir entryName => dir ++ "/" ++ entryName
    isValidFile := fun _ => markerPresent }

/-- A Linux host on which the configuration directory of the application is
`/home/youda/.config/gzdoom`. -/
def exampleLinuxHost : Host :=
  { getDocumentsDir := "/home/youda/Documents"
    getSavedGamesDir := "/home/youda"
    getPicturesDir := "/home/youda/Pictures"
    getConfigDirForApp := fun _ => "/home/youda/.config/gzdoom"
    getParentDir := fun path => String.mk (os.beforeLast '/' path.data)
    getPathFromEntryName := fun dir entryName => dir ++ "/" ++ entryName
    isValidFile := fun _ => false }

/-- An example of `Version::isValid`: every version but 0.0.0 is valid. -/
def exampleVersionIsValid (v : Version) : Bool := decide (v ≠ ⟨0, 0, 0⟩)

/-- The identity of a GZDoom executable on Windows whose version metadata names the
application "GZDoom" with the given version. -/
def exampleGZDoomOnWindows (version : Version) : AppInfo :=
  os.loadAppInfo "E:/Youda/Projects/DoomRunner/TestDoomDir/GZDoom/gzdoom.exe" ⟨0, "", ""⟩
    ⟨"GZDoom", "", version⟩ "GZDoom"

/-- The identity of the executable `/usr/games/gzdoom` of `main.cpp`, which carries no
version metadata. -/
def exampleGZDoomOnLinux : AppInfo :=
  os.loadAppInfo "/usr/games/gzdoom" ⟨0, "", ""⟩ ⟨"", "", ⟨0, 0, 0⟩⟩ "gzdoom"

/-! # Properties -/

/-! ## Engine families and their names -/

/-- C1: for every valid engine family `f` (ZDoom, PrBoom, MBF, ChocolateDoom),
`familyFromStr (familyToStr f) = f`. -/
theorem familyFromStr_familyToStr (f : EngineFamily) (hf : f.isValid) :
    familyFromStr (familyToStr f) = f := by
  rcases hf with h | h | h | h <;> subst h <;> decide

theorem familyFromStr_familyToStr_witness :
    EngineFamily.MBF.isValid ∧ familyFromStr (familyToStr EngineFamily.MBF) = EngineFamily.MBF :=
  ⟨by decide, familyFromStr_familyToStr EngineFamily.MBF (by decide)⟩

/-- C2: a string that is none of the four canonical family names is parsed to the invalid
marker `_EnumEnd`; each of the four canonical names is parsed to a valid family, never to
the marker. -/
theorem familyFromStr_canonical_or_marker (s : String) :
    (s ≠ "ZDoom" → s ≠ "PrBoom" → s ≠ "MBF" → s ≠ "ChocolateDoom" →
        familyFromStr s = EngineFamily._EnumEnd) ∧
    (s = "ZDoom" ∨ s = "PrBoom" ∨ s = "MBF" ∨ s = "ChocolateDoom" →
        (familyFromStr s).isValid ∧ familyFromStr s ≠ EngineFamily._EnumEnd) := by
  constructor
  · intro h1 h2 h3 h4
    simp [familyFromStr, find, findFrom, engineFamilyStrings, Ne.symm h1, Ne.symm h2,
      Ne.symm h3, Ne.symm h4]
  · intro h
    rcases h with h | h | h | h <;> subst h <;> decide

theorem familyFromStr_canonical_or_marker_witness :
    familyFromStr "zdoom" = EngineFamily._EnumEnd ∧
    ((familyFromStr "MBF").isValid ∧ familyFromStr "MBF" ≠ EngineFamily._EnumEnd) :=
  ⟨(familyFromStr_canonical_or_marker "zdoom").1 (by decide) (by decide) (by decide) (by decide),
   (familyFromStr_canonical_or_marker "MBF").2 (by decide)⟩

/-! ## Guessing the family from the executable name -/

theorem knownEngineFamilies_valid :
    ∀ p ∈ knownEngineFamilies, p.2.isValid := by
  decide

theorem lookup_mem {β : Type} (k : String) (b : β) :
    ∀ l : List (String × β), l.lookup k = some b → (k, b) ∈ l := by
  intro l h
  obtain ⟨l₁, l₂, hl, _⟩ := List.lookup_eq_some_iff.mp h
  rw [hl]
  simp

theorem lookup_none_of_not_key {β : Type} (k : String) (l : List (String × β))
    (h : k ∉ l.map Prod.fst) : l.lookup k = none := by
  rw [List.lookup_eq_none_iff]
  intro p hp
  have hne : k ≠ p.1 := by
    intro hk
    exact h (hk ▸ List.mem_map_of_mem Prod.fst hp)
  simpa using hne

/-- C3: `guessEngineFamily` returns a result for every loaded identity, the result is one
of the four valid families (so never the marker `_EnumEnd`), and it is ZDoom whenever the
normalized name is not a key of the table of known engines. -/
theorem guessEngineFamily_total (appInfo : AppInfo) (traits : Option (Fin 4)) :
    (∃ family, (EngineTraits.mk (some appInfo) traits).guessEngineFamily = some family ∧
      family.isValid ∧ family ≠ EngineFamily._EnumEnd) ∧
    (appInfo.normalizedName ∉ knownEngineFamilies.map Prod.fst →
      (EngineTraits.mk (some appInfo) traits).guessEngineFamily = some EngineFamily.ZDoom) := by
  have hne : ∀ f : EngineFamily, f.isValid → f ≠ EngineFamily._EnumEnd := by
    intro f hf
    rcases hf with h | h | h | h <;> subst h <;> decide
  constructor
  · cases hl : knownEngineFamilies.lookup appInfo.normalizedName with
    | none =>
      refine ⟨EngineFamily.ZDoom, ?_, by decide, by decide⟩
      simp [EngineTraits.guessEngineFamily, hl]
    | some fam =>
      have hv : fam.isValid := knownEngineFamilies_valid _ (lookup_mem _ _ _ hl)
      refine ⟨fam, ?_, hv, hne fam hv⟩
      simp [EngineTraits.guessEngineFamily, hl]
  · intro hk
    simp [EngineTraits.guessEngineFamily, lookup_none_of_not_key _ _ hk]

theorem guessEngineFamily_total_witness :
    (∃ family, (EngineTraits.mk (some
        (os.loadAppInfo "/usr/games/odamex" ⟨0, "", ""⟩ ⟨"", "", ⟨0, 0, 0⟩⟩ "odamex"))
        none).guessEngineFamily = some family ∧
      family.isValid ∧ family ≠ EngineFamily._EnumEnd) ∧
    (EngineTraits.mk (some
        (os.loadAppInfo "/usr/games/odamex" ⟨0, "", ""⟩ ⟨"", "", ⟨0, 0, 0⟩⟩ "odamex"))
        none).guessEngineFamily = some EngineFamily.ZDoom :=
  ⟨(guessEngineFamily_total
      (os.loadAppInfo "/usr/games/odamex" ⟨0, "", ""⟩ ⟨"", "", ⟨0, 0, 0⟩⟩ "odamex") none).1,
   (guessEngineFamily_total
      (os.loadAppInfo "/usr/games/odamex" ⟨0, "", ""⟩ ⟨"", "", ⟨0, 0, 0⟩⟩ "odamex") none).2
      (by decide)⟩

/-! ### Normalization of the executable name -/

theorem afterLast_of_not_mem (sep : Char) :
    ∀ s : List Char, sep ∉ s → os.afterLast sep s = s := by
  intro s
  induction s with
  | nil => intro _; rfl
  | cons c cs _ =>
    intro h
    have h1 : sep ∉ cs := fun hm => h (List.mem_cons_of_mem c hm)
    have h2 : ¬ c = sep := fun hc => h (hc ▸ List.mem_cons_self c cs)
    simp [os.afterLast, h1, h2]

theorem beforeLast_of_not_mem (sep : Char) :
    ∀ s : List Char, sep ∉ s → os.beforeLast sep s = s := by
  intro s
  induction s with
  | nil => intro _; rfl
  | cons c cs _ =>
    intro h
    have h1 : sep ∉ cs := fun hm => h (List.mem_cons_of_mem c hm)
    have h2 : ¬ c = sep := fun hc => h (hc ▸ List.mem_cons_self c cs)
    simp [os.beforeLast, h1, h2]

theorem beforeLast_append (sep : Char) (t : List Char) (ht : sep ∉ t) :
    ∀ s : List Char, sep ∉ s → os.beforeLast sep (s ++ sep :: t) = s := by
  intro s
  induction s with
  | nil =>
    intro _
    simp [os.beforeLast, ht]
  | cons c cs ih =>
    intro h
    have h1 : sep ∉ cs := fun hm => h (List.mem_cons_of_mem c hm)
    simp [os.beforeLast, ih h1]

theorem not_mem_of_toLower (c : Char) (hc : Char.toLower c = c) (raw : String)
    (h : c ∉ (os.toLower raw).data) : c ∉ raw.data := by
  intro hm
  apply h
  have : Char.toLower c ∈ raw.data.map Char.toLower := List.mem_map_of_mem _ hm
  rw [hc] at this
  exact this

/-- The normalized name of an executable given by its bare file name `raw`, or by `raw`
followed by `.exe`, is the lowercase form of `raw`, provided that form holds neither a dot
nor a slash. -/
theorem normalizedName_of_raw (raw : String) (sandboxEnv : SandboxEnvInfo)
    (versionInfo : AppVersionInfo) (displayName : String)
    (hdot : '.' ∉ (os.toLower raw).data) (hslash : '/' ∉ (os.toLower raw).data) :
    (os.loadAppInfo raw sandboxEnv versionInfo displayName).normalizedName = os.toLower raw ∧
    (os.loadAppInfo (raw ++ ".exe") sandboxEnv versionInfo displayName).normalizedName
      = os.toLower raw := by
  have h1 : '.' ∉ raw.data := not_mem_of_toLower _ (by decide) raw hdot
  have h2 : '/' ∉ raw.data := not_mem_of_toLower _ (by decide) raw hslash
  have hexe : (raw ++ ".exe").data = raw.data ++ '.' :: ['e', 'x', 'e'] := by
    rw [String.data_append]
  have h3 : '/' ∉ raw.data ++ '.' :: ['e', 'x', 'e'] := by
    intro hm
    rcases List.mem_append.mp hm with hm | hm
    · exact h2 hm
    · revert hm
      decide
  constructor
  · simp only [os.loadAppInfo, os.getFileBasenameFromPath]
    rw [afterLast_of_not_mem _ _ h2, beforeLast_of_not_mem _ _ h1]
  · simp only [os.loadAppInfo, os.getFileBasenameFromPath]
    rw [hexe, afterLast_of_not_mem _ _ h3, beforeLast_append '.' _ (by decide) _ h1]

theorem guessEngineFamily_of_lookup (appInfo : AppInfo) (traits : Option (Fin 4))
    (family : EngineFamily)
    (hl : knownEngineFamilies.lookup appInfo.normalizedName = some family) :
    (EngineTraits.mk (some appInfo) traits).guessEngineFamily = some family := by
  simp [EngineTraits.guessEngineFamily, hl]

theorem guessFamilyOfPath_of_lower (raw : String) (sandboxEnv : SandboxEnvInfo)
    (versionInfo : AppVersionInfo) (displayName : String) (names : List String)
    (family : EngineFamily)
    (hnames : ∀ k ∈ names, '.' ∉ k.data ∧ '/' ∉ k.data ∧
      knownEngineFamilies.lookup k = some family)
    (hraw : os.toLower raw ∈ names) :
    guessFamilyOfPath raw sandboxEnv versionInfo displayName = some family ∧
    guessFamilyOfPath (raw ++ ".exe") sandboxEnv versionInfo displayName = some family := by
  obtain ⟨hdot, hslash, hl⟩ := hnames _ hraw
  obtain ⟨h1, h2⟩ := normalizedName_of_raw raw sandboxEnv versionInfo displayName hdot hslash
  constructor
  · apply guessEngineFamily_of_lookup
    rw [h1]
    exact hl
  · apply guessEngineFamily_of_lookup
    rw [h2]
    exact hl

/-- C4: `guessEngineFamily` returns the documented family for each known normalized name,
and, with the normalized name computed as the spec describes it (base file name,
lowercased, extension stripped), an executable file name `raw` or `raw.exe` whose lowercase
form is a known name gets the family of that name. -/
theorem guessEngineFamily_known (appInfo : AppInfo) (traits : Option (Fin 4)) (raw : String)
    (sandboxEnv : SandboxEnvInfo) (versionInfo : AppVersionInfo) (displayName : String) :
    ((appInfo.normalizedName ∈
          ["zdoom", "lzdoom", "gzdoom", "qzdoom", "skulltag", "zandronum"] →
        (EngineTraits.mk (some appInfo) traits).guessEngineFamily = some EngineFamily.ZDoom) ∧
      (appInfo.normalizedName ∈ ["prboom", "prboom-plus", "glboom", "dsda-doom"] →
        (EngineTraits.mk (some appInfo) traits).guessEngineFamily = some EngineFamily.PrBoom) ∧
      (appInfo.normalizedName ∈ ["smmu", "eternity", "woof"] →
        (EngineTraits.mk (some appInfo) traits).guessEngineFamily = some EngineFamily.MBF) ∧
      (appInfo.normalizedName ∈
          ["chocolate-doom", "crispy-doom", "doomretro", "strife-ve"] →
        (EngineTraits.mk (some appInfo) traits).guessEngineFamily
          = some EngineFamily.ChocolateDoom)) ∧
    ((os.toLower raw ∈ ["zdoom", "lzdoom", "gzdoom", "qzdoom", "skulltag", "zandronum"] →
        guessFamilyOfPath raw sandboxEnv versionInfo displayName = some EngineFamily.ZDoom ∧
        guessFamilyOfPath (raw ++ ".exe") sandboxEnv versionInfo displayName
          = some EngineFamily.ZDoom) ∧
      (os.toLower raw ∈ ["prboom", "prboom-plus", "glboom", "dsda-doom"] →
        guessFamilyOfPath raw sandboxEnv versionInfo displayName = some EngineFamily.PrBoom ∧
        guessFamilyOfPath (raw ++ ".exe") sandboxEnv versionInfo displayName
          = some EngineFamily.PrBoom) ∧
      (os.toLower raw ∈ ["smmu", "eternity", "woof"] →
        guessFamilyOfPath raw sandboxEnv versionInfo displayName = some EngineFamily.MBF ∧
        guessFamilyOfPath (raw ++ ".exe") sandboxEnv versionInfo displayName
          = some EngineFamily.MBF) ∧
      (os.toLower raw ∈ ["chocolate-doom", "crispy-doom", "doomretro", "strife-ve"] →
        guessFamilyOfPath raw sandboxEnv versionInfo displayName
          = some EngineFamily.ChocolateDoom ∧
        guessFamilyOfPath (raw ++ ".exe") sandboxEnv versionInfo displayName
          = some EngineFamily.ChocolateDoom)) := by
  have hz : ∀ k ∈ ["zdoom", "lzdoom", "gzdoom", "qzdoom", "skulltag", "zandronum"],
      '.' ∉ k.data ∧ '/' ∉ k.data ∧
      knownEngineFamilies.lookup k = some EngineFamily.ZDoom := by decide
  have hp : ∀ k ∈ ["prboom", "prboom-plus", "glboom", "dsda-doom"],
      '.' ∉ k.data ∧ '/' ∉ k.data ∧
      knownEngineFamilies.lookup k = some EngineFamily.PrBoom := by decide
  have hm : ∀ k ∈ ["smmu", "eternity", "woof"],
      '.' ∉ k.data ∧ '/' ∉ k.data ∧
      knownEngineFamilies.lookup k = some EngineFamily.MBF := by decide
  have hc : ∀ k ∈ ["chocolate-doom", "crispy-doom", "doomretro", "strife-ve"],
      '.' ∉ k.data ∧ '/' ∉ k.data ∧
      knownEngineFamilies.lookup k = some EngineFamily.ChocolateDoom := by decide
  refine ⟨⟨?_, ?_, ?_, ?_⟩, ?_, ?_, ?_, ?_⟩
  · exact fun h => guessEngineFamily_of_lookup _ _ _ (hz _ h).2.2
  · exact fun h => guessEngineFamily_of_lookup _ _ _ (hp _ h).2.2
  · exact fun h => guessEngineFamily_of_lookup _ _ _ (hm _ h).2.2
  · exact fun h => guessEngineFamily_of_lookup _ _ _ (hc _ h).2.2
  · exact guessFamilyOfPath_of_lower raw _ _ _ _ _ hz
  · exact guessFamilyOfPath_of_lower raw _ _ _ _ _ hp
  · exact guessFamilyOfPath_of_lower raw _ _ _ _ _ hm
  · exact guessFamilyOfPath_of_lower raw _ _ _ _ _ hc

theorem guessEngineFamily_known_witness :
    (EngineTraits.mk (some
        (os.loadAppInfo "/usr/bin/dsda-doom" ⟨0, "", ""⟩ ⟨"", "", ⟨0, 0, 0⟩⟩ "dsda-doom"))
        none).guessEngineFamily = some EngineFamily.PrBoom ∧
    (guessFamilyOfPath "GZDoom" ⟨0, "", ""⟩ ⟨"", "", ⟨0, 0, 0⟩⟩ "GZDoom"
        = some EngineFamily.ZDoom ∧
      guessFamilyOfPath ("GZDoom" ++ ".exe") ⟨0, "", ""⟩ ⟨"", "", ⟨0, 0, 0⟩⟩ "GZDoom"
        = some EngineFamily.ZDoom) ∧
    (guessFamilyOfPath "PrBoom-Plus" ⟨0, "", ""⟩ ⟨"", "", ⟨0, 0, 0⟩⟩ "PrBoom-Plus"
        = some EngineFamily.PrBoom ∧
      guessFamilyOfPath ("PrBoom-Plus" ++ ".exe") ⟨0, "", ""⟩ ⟨"", "", ⟨0, 0, 0⟩⟩ "PrBoom-Plus"
        = some EngineFamily.PrBoom) :=
  ⟨(guessEngineFamily_known
      (os.loadAppInfo "/usr/bin/dsda-doom" ⟨0, "", ""⟩ ⟨"", "", ⟨0, 0, 0⟩⟩ "dsda-doom") none
      "GZDoom" ⟨0, "", ""⟩ ⟨"", "", ⟨0, 0, 0⟩⟩ "GZDoom").1.2.1 (by decide),
   (guessEngineFamily_known
      (os.loadAppInfo "/usr/bin/dsda-doom" ⟨0, "", ""⟩ ⟨"", "", ⟨0, 0, 0⟩⟩ "dsda-doom") none
      "GZDoom" ⟨0, "", ""⟩ ⟨"", "", ⟨0, 0, 0⟩⟩ "GZDoom").2.1 (by decide),
   (guessEngineFamily_known
      (os.loadAppInfo "/usr/bin/dsda-doom" ⟨0, "", ""⟩ ⟨"", "", ⟨0, 0, 0⟩⟩ "dsda-doom") none
      "PrBoom-Plus" ⟨0, "", ""⟩ ⟨"", "", ⟨0, 0, 0⟩⟩ "PrBoom-Plus").2.2.1 (by decide)⟩

/-! ## Binding the family traits -/

theorem isValid_iff_val (family : EngineFamily) :
    family.isValid ↔ family.val = 0 ∨ family.val = 1 ∨ family.val = 2 ∨ family.val = 3 := by
  cases family with
  | mk v =>
    simp [EngineFamily.isValid, EngineFamily.ZDoom, EngineFamily.PrBoom, EngineFamily.MBF,
      EngineFamily.ChocolateDoom]

theorem size_t_lt_four_iff (family : EngineFamily) (hint : isInt family.val) :
    size_t family.val < 4 ↔ family.isValid := by
  rw [isValid_iff_val]
  unfold isInt at hint
  unfold size_t
  omega

theorem size_t_of_isValid (family : EngineFamily) (hf : family.isValid) :
    size_t family.val = family.val.toNat := by
  rw [isValid_iff_val] at hf
  unfold size_t
  omega

theorem assignFamilyTraits_of_lt (et : EngineTraits) (family : EngineFamily)
    (h : size_t family.val < 4) :
    et.assignFamilyTraits family = ⟨et._appInfo, some ⟨size_t family.val, h⟩⟩ := by
  unfold EngineTraits.assignFamilyTraits
  rw [dif_pos h]

theorem assignFamilyTraits_of_not_lt (et : EngineTraits) (family : EngineFamily)
    (h : ¬ size_t family.val < 4) :
    et.assignFamilyTraits family = ⟨et._appInfo, some ⟨0, by decide⟩⟩ := by
  unfold EngineTraits.assignFamilyTraits
  rw [dif_neg h]

/-- C5: `assignFamilyTraits` always binds a row: for a valid family the row of the table at
the position of that family, for every other value of the enumeration type (the marker
`_EnumEnd` among them) the first row, that of ZDoom; afterwards `hasFamilyTraits` is true
and the application info is what it was. -/
theorem assignFamilyTraits_binds (IS_WINDOWS : Bool) (et : EngineTraits) (family : EngineFamily)
    (hint : isInt family.val) :
    (family.isValid →
      (et.assignFamilyTraits family)._familyTraits.map Fin.val = some family.val.toNat ∧
      ∃ row, (engineFamilyTraits IS_WINDOWS)[family.val.toNat]? = some row ∧
        (et.assignFamilyTraits family).familyTraits IS_WINDOWS = some row) ∧
    (¬ family.isValid →
      (et.assignFamilyTraits family)._familyTraits.map Fin.val = some EngineFamily.ZDoom.val.toNat ∧
      (et.assignFamilyTraits family).familyTraits IS_WINDOWS
        = some ⟨MapParamStyle.Map, CompatLevelStyle.ZDoom, "-savedir", true, IS_WINDOWS⟩) ∧
    (et.assignFamilyTraits family).hasFamilyTraits = true ∧
    (et.assignFamilyTraits family)._appInfo = et._appInfo := by
  refine ⟨?_, ?_, ?_, ?_⟩
  · intro hf
    have hlt : size_t family.val < 4 := (size_t_lt_four_iff family hint).mpr hf
    have hsz := size_t_of_isValid family hf
    have hlen : family.val.toNat < (engineFamilyTraits IS_WINDOWS).length := by
      rw [← hsz]
      exact hlt
    rw [assignFamilyTraits_of_lt et family hlt]
    refine ⟨?_, (engineFamilyTraits IS_WINDOWS)[family.val.toNat], ?_, ?_⟩
    · simp [hsz]
    · exact List.getElem?_eq_getElem hlen
    · simp only [EngineTraits.familyTraits, Option.some_bind, hsz]
      exact List.getElem?_eq_getElem hlen
  · intro hf
    have hlt : ¬ size_t family.val < 4 := fun h => hf ((size_t_lt_four_iff family hint).mp h)
    rw [assignFamilyTraits_of_not_lt et family hlt]
    constructor
    · simp [EngineFamily.ZDoom]
    · simp [EngineTraits.familyTraits, engineFamilyTraits]
  · unfold EngineTraits.assignFamilyTraits
    split <;> rfl
  · unfold EngineTraits.assignFamilyTraits
    split <;> rfl

theorem assignFamilyTraits_binds_witness :
    isInt EngineFamily._EnumEnd.val ∧ isInt EngineFamily.MBF.val ∧
    ((EngineTraits.init.assignFamilyTraits EngineFamily.MBF)._familyTraits.map Fin.val
        = some EngineFamily.MBF.val.toNat ∧
      ∃ row, (engineFamilyTraits true)[EngineFamily.MBF.val.toNat]? = some row ∧
        (EngineTraits.init.assignFamilyTraits EngineFamily.MBF).familyTraits true = some row) ∧
    ((EngineTraits.init.assignFamilyTraits EngineFamily._EnumEnd)._familyTraits.map Fin.val
        = some EngineFamily.ZDoom.val.toNat ∧
      (EngineTraits.init.assignFamilyTraits EngineFamily._EnumEnd).familyTraits true
        = some ⟨MapParamStyle.Map, CompatLevelStyle.ZDoom, "-savedir", true, true⟩) :=
  ⟨by decide, by decide,
   (assignFamilyTraits_binds true EngineTraits.init EngineFamily.MBF (by decide)).1 (by decide),
   (assignFamilyTraits_binds true EngineTraits.init EngineFamily._EnumEnd (by decide)).2.1
     (by decide)⟩

/-! ## Map arguments -/

theorem hasAppInfo_iff (et : EngineTraits) :
    et.hasAppInfo = true ↔ ∃ appInfo, et._appInfo = some appInfo := by
  unfold EngineTraits.hasAppInfo
  exact Option.isSome_iff_exists

theorem familyTraits_of_hasFamilyTraits (IS_WINDOWS : Bool) (et : EngineTraits)
    (h : et.hasFamilyTraits = true) :
    ∃ traits, et.familyTraits IS_WINDOWS = some traits ∧
      traits ∈ engineFamilyTraits IS_WINDOWS := by
  unfold EngineTraits.hasFamilyTraits at h
  obtain ⟨i, hi⟩ := Option.isSome_iff_exists.mp h
  have hlen : i.val < (engineFamilyTraits IS_WINDOWS).length := i.isLt
  refine ⟨(engineFamilyTraits IS_WINDOWS)[i.val], ?_, List.getElem_mem hlen⟩
  simp only [EngineTraits.familyTraits, hi, Option.some_bind]
  exact List.getElem?_eq_getElem hlen

theorem length_ne_zero_of_ne_empty (s : String) (h : s ≠ "") : s.length ≠ 0 := by
  intro h0
  apply h
  have hd : s.data = [] := List.length_eq_zero.mp h0
  exact String.ext hd

/-- C6: with application info loaded and family traits bound, whatever the family,
`getMapArgs mapIdx ""` is the empty sequence for every map index. -/
theorem getMapArgs_empty_name (IS_WINDOWS : Bool) (et : EngineTraits) (mapIdx : Int)
    (hApp : et.hasAppInfo = true) (hTraits : et.hasFamilyTraits = true) :
    et.getMapArgs IS_WINDOWS mapIdx "" = some [] := by
  obtain ⟨appInfo, ha⟩ := (hasAppInfo_iff et).mp hApp
  obtain ⟨traits, ht, _⟩ := familyTraits_of_hasFamilyTraits IS_WINDOWS et hTraits
  simp [EngineTraits.getMapArgs, ha, ht]

theorem getMapArgs_empty_name_witness :
    ((EngineTraits.init.loadAppInfo "/usr/games/chocolate-doom" ⟨0, "", ""⟩
        ⟨"", "", ⟨0, 0, 0⟩⟩ "chocolate-doom").assignFamilyTraits
        EngineFamily.ChocolateDoom).getMapArgs false 7 "" = some [] :=
  getMapArgs_empty_name false _ 7 (by decide) (by decide)

/-- C7: when the bound row has the named-map style (`+map`), `getMapArgs` returns
`["+map", mapName]` for every map index and every non-empty map name, with the name as it
was given. -/
theorem getMapArgs_map_style (IS_WINDOWS : Bool) (et : EngineTraits) (traits : EngineFamilyTraits)
    (mapIdx : Int) (mapName : String)
    (hApp : et.hasAppInfo = true) (hTraits : et.familyTraits IS_WINDOWS = some traits)
    (hStyle : traits.mapParamStyle = MapParamStyle.Map) (hName : mapName ≠ "") :
    et.getMapArgs IS_WINDOWS mapIdx mapName = some ["+map", mapName] := by
  obtain ⟨appInfo, ha⟩ := (hasAppInfo_iff et).mp hApp
  have hlen := length_ne_zero_of_ne_empty mapName hName
  simp [EngineTraits.getMapArgs, ha, hTraits, hlen, hStyle]

theorem getMapArgs_map_style_witness :
    ((EngineTraits.init.loadAppInfo "/usr/games/gzdoom" ⟨0, "", ""⟩
        ⟨"", "", ⟨0, 0, 0⟩⟩ "gzdoom").assignFamilyTraits
        EngineFamily.ZDoom).getMapArgs false 5 "E2M5" = some ["+map", "E2M5"] :=
  getMapArgs_map_style false _
    ⟨MapParamStyle.Map, CompatLevelStyle.ZDoom, "-savedir", true, false⟩ 5 "E2M5"
    (by decide) (by decide) (by decide) (by decide)

/-! ### Matching of the two patterns -/

theorem firstFromDown_of_some {α : Type} (k : Nat → Option α) (n : Nat) (r : α)
    (h : k (n + 1) = some r) : firstFromDown k (n + 1) = some r := by
  simp [firstFromDown, h]

theorem firstFromDown_sound {α : Type} (k : Nat → Option α) (r : α) :
    ∀ n, firstFromDown k n = some r → ∃ m, 0 < m ∧ m ≤ n ∧ k m = some r := by
  intro n
  induction n with
  | zero =>
    intro h
    simp [firstFromDown] at h
  | succ n ih =>
    intro h
    cases hk : k (n + 1) with
    | some r1 =>
      simp only [firstFromDown, hk, Option.some.injEq] at h
      exact ⟨n + 1, Nat.succ_pos n, Nat.le_refl _, by rw [hk, h]⟩
    | none =>
      simp only [firstFromDown, hk] at h
      obtain ⟨m, h0, hm, hr⟩ := ih h
      exact ⟨m, h0, Nat.le_succ_of_le hm, hr⟩

theorem searchFrom_of_matchHere (re : List RegexItem) (s : List Char) (groups : List String)
    (h : matchHere re s = some groups) : searchFrom re s = some groups := by
  cases s with
  | nil => simpa [searchFrom] using h
  | cons c cs => simp [searchFrom, h]

theorem searchFrom_sound (re : List RegexItem) (groups : List String) :
    ∀ s, searchFrom re s = some groups →
      ∃ before rest, s = before ++ rest ∧ matchHere re rest = some groups := by
  intro s
  induction s with
  | nil =>
    intro h
    exact ⟨[], [], rfl, by simpa [searchFrom] using h⟩
  | cons c cs ih =>
    intro h
    cases hm : matchHere re (c :: cs) with
    | some g =>
      simp only [searchFrom, hm, Option.some.injEq] at h
      exact ⟨[], c :: cs, rfl, by rw [hm, h]⟩
    | none =>
      simp only [searchFrom, hm] at h
      obtain ⟨before, rest, hs, hr⟩ := ih h
      exact ⟨c :: before, rest, by rw [hs]; rfl, hr⟩

theorem matchHere_lit_sound (c : Char) (re : List RegexItem) (s : List Char)
    (groups : List String) (h : matchHere (RegexItem.lit c :: re) s = some groups) :
    ∃ rest, s = c :: rest ∧ matchHere re rest = some groups := by
  cases s with
  | nil => simp [matchHere] at h
  | cons x xs =>
    by_cases hx : x = c
    · subst hx
      exact ⟨xs, rfl, by simpa [matchHere] using h⟩
    · simp [matchHere, hx] at h

theorem matchHere_digits_sound (re : List RegexItem) (s : List Char) (groups : List String)
    (h : matchHere (RegexItem.digits :: re) s = some groups) :
    ∃ ds rest restGroups, isDigits ds ∧ s = ds ++ rest ∧
      matchHere re rest = some restGroups ∧ groups = String.mk ds :: restGroups := by
  simp only [matchHere] at h
  obtain ⟨m, h0, hm, hk⟩ := firstFromDown_sound _ _ _ h
  cases hr : matchHere re (s.drop m) with
  | none => simp [hr] at hk
  | some g =>
    simp only [hr, Option.map_some', Option.some.injEq] at hk
    refine ⟨s.take m, s.drop m, g, ⟨?_, ?_⟩, (List.take_append_drop m s).symm, hr, hk.symm⟩
    · intro he
      have hl : (s.take m).length = 0 := by rw [he]; rfl
      have hle : (s.takeWhile Char.isDigit).length ≤ s.length :=
        (List.takeWhile_prefix Char.isDigit).length_le
      rw [List.length_take] at hl
      omega
    · intro c hc
      have hp : s.take m = (s.takeWhile Char.isDigit).take m := by
        obtain ⟨t, ht⟩ := List.takeWhile_prefix (l := s) Char.isDigit
        conv_lhs => rw [← ht]
        rw [List.take_append_of_le_length hm]
      rw [hp] at hc
      exact List.mem_takeWhile_imp (List.mem_of_mem_take hc)

theorem matchHere_digits_of_run (re : List RegexItem) (ds rest : List Char)
    (restGroups : List String) (hds : isDigits ds)
    (hrest : rest.takeWhile Char.isDigit = [])
    (h : matchHere re rest = some restGroups) :
    matchHere (RegexItem.digits :: re) (ds ++ rest) = some (String.mk ds :: restGroups) := by
  have hrun : (ds ++ rest).takeWhile Char.isDigit = ds := by
    rw [List.takeWhile_append_of_pos hds.2, hrest, List.append_nil]
  obtain ⟨n, hn⟩ : ∃ n, ds.length = n + 1 :=
    Nat.exists_eq_succ_of_ne_zero (fun h0 => hds.1 (List.length_eq_zero.mp h0))
  simp only [matchHere, hrun, hn]
  apply firstFromDown_of_some
  rw [← hn, List.drop_left, List.take_left, h]
  rfl

theorem doom1_match_of_form (episode map : List Char) (he : isDigits episode)
    (hm : isDigits map) :
    QRegularExpression_match doom1MapNameRegex (String.mk ('E' :: episode ++ 'M' :: map))
      = some [String.mk episode, String.mk map] := by
  apply searchFrom_of_matchHere
  have h2 : matchHere [RegexItem.digits] (map ++ []) = some [String.mk map] :=
    matchHere_digits_of_run [] map [] [] hm rfl rfl
  rw [List.append_nil] at h2
  have h1 : matchHere [RegexItem.lit 'M', RegexItem.digits] ('M' :: map)
      = some [String.mk map] := by
    simpa [matchHere] using h2
  have h0 := matchHere_digits_of_run [RegexItem.lit 'M', RegexItem.digits] episode
    ('M' :: map) [String.mk map] he (by simp [List.takeWhile]) h1
  simpa [doom1MapNameRegex, matchHere] using h0

theorem doom2_match_of_form (number : List Char) (hn : isDigits number) :
    QRegularExpression_match doom2MapNameRegex (String.mk ('M' :: 'A' :: 'P' :: number))
      = some [String.mk number] := by
  apply searchFrom_of_matchHere
  have h2 : matchHere [RegexItem.digits] (number ++ []) = some [String.mk number] :=
    matchHere_digits_of_run [] number [] [] hn rfl rfl
  rw [List.append_nil] at h2
  simpa [doom2MapNameRegex, matchHere] using h2

theorem searchFrom_lit_none (c : Char) (re : List RegexItem) :
    ∀ s : List Char, c ∉ s → searchFrom (RegexItem.lit c :: re) s = none := by
  intro s
  induction s with
  | nil =>
    intro _
    simp [searchFrom, matchHere]
  | cons x xs ih =>
    intro h
    have h1 : c ∉ xs := fun hm => h (List.mem_cons_of_mem x hm)
    have h2 : ¬ x = c := fun hx => h (hx ▸ List.mem_cons_self x xs)
    simp [searchFrom, matchHere, h2, ih h1]

theorem doom1_no_match_of_MAPnn (number : List Char) (hn : isDigits number) :
    QRegularExpression_match doom1MapNameRegex (String.mk ('M' :: 'A' :: 'P' :: number))
      = none := by
  apply searchFrom_lit_none
  intro hmem
  have hE : 'E' ∈ number := by
    simpa using hmem
  have := hn.2 _ hE
  revert this
  decide

/-- The body of `getMapArgs` for a row of the numbered-map style and a non-empty name. -/
theorem getMapArgs_warp_style (IS_WINDOWS : Bool) (et : EngineTraits) (traits : EngineFamilyTraits)
    (mapIdx : Int) (mapName : String)
    (hApp : et.hasAppInfo = true) (hTraits : et.familyTraits IS_WINDOWS = some traits)
    (hStyle : traits.mapParamStyle = MapParamStyle.Warp) (hName : mapName.length ≠ 0) :
    et.getMapArgs IS_WINDOWS mapIdx mapName =
      match QRegularExpression_match doom1MapNameRegex mapName with
      | some groups => some ["-warp", captured groups 1, captured groups 2]
      | none =>
        match QRegularExpression_match doom2MapNameRegex mapName with
        | some groups => some ["-warp", captured groups 1]
        | none => some ["-warp", QString_number (wrapInt (mapIdx + 1))] := by
  obtain ⟨appInfo, ha⟩ := (hasAppInfo_iff et).mp hApp
  have hs : ¬ traits.mapParamStyle = MapParamStyle.Map := by
    rw [hStyle]
    decide
  simp only [EngineTraits.getMapArgs, ha, hTraits, hName, hs, if_false]

/-- C8: when the bound row has the numbered-map style (`-warp`), `getMapArgs` returns
`["-warp", episode, map]` for every map index and every map name
`E<episode digits>M<map digits>`, the two digit groups being those of the name; the map
index does not enter the result. -/
theorem getMapArgs_warp_ExMy (IS_WINDOWS : Bool) (et : EngineTraits) (traits : EngineFamilyTraits)
    (mapIdx : Int) (episode map : List Char)
    (hApp : et.hasAppInfo = true) (hTraits : et.familyTraits IS_WINDOWS = some traits)
    (hStyle : traits.mapParamStyle = MapParamStyle.Warp)
    (hEpisode : isDigits episode) (hMap : isDigits map) :
    et.getMapArgs IS_WINDOWS mapIdx (String.mk ('E' :: episode ++ 'M' :: map))
      = some ["-warp", String.mk episode, String.mk map] := by
  rw [getMapArgs_warp_style IS_WINDOWS et traits mapIdx _ hApp hTraits hStyle (by simp [String.length]),
    doom1_match_of_form episode map hEpisode hMap]
  rfl

theorem getMapArgs_warp_ExMy_witness :
    ((EngineTraits.init.loadAppInfo "/usr/games/prboom-plus" ⟨0, "", ""⟩
        ⟨"", "", ⟨0, 0, 0⟩⟩ "prboom-plus").assignFamilyTraits
        EngineFamily.PrBoom).getMapArgs false 0 "E2M5" = some ["-warp", "2", "5"] :=
  getMapArgs_warp_ExMy false _ ⟨MapParamStyle.Warp, CompatLevelStyle.PrBoom, "-save", false, false⟩
    0 ['2'] ['5'] (by decide) (by decide) (by decide) (by decide) (by decide)

/-- C9, as stated, fails: for the name "MAP07" a family of the numbered-map style gets
`["-warp", "07"]`, the digits as they stand in the name, and not `["-warp", "7"]`. -/
theorem getMapArgs_MAP07_keeps_zero :
    ((EngineTraits.init.loadAppInfo "/usr/games/prboom-plus" ⟨0, "", ""⟩
        ⟨"", "", ⟨0, 0, 0⟩⟩ "prboom-plus").assignFamilyTraits
        EngineFamily.PrBoom).getMapArgs false 6 "MAP07" = some ["-warp", "07"] ∧
    ((EngineTraits.init.loadAppInfo "/usr/games/prboom-plus" ⟨0, "", ""⟩
        ⟨"", "", ⟨0, 0, 0⟩⟩ "prboom-plus").assignFamilyTraits
        EngineFamily.PrBoom).getMapArgs false 6 "MAP07" ≠ some ["-warp", "7"] := by
  decide

/-- C9, amended: when the bound row has the numbered-map style (`-warp`), `getMapArgs`
returns `["-warp", digits]` for every map index and every map name `MAP<digits>`, where
`digits` is the digit group of the name exactly as written, leading zeros included. -/
theorem getMapArgs_warp_MAPnn (IS_WINDOWS : Bool) (et : EngineTraits) (traits : EngineFamilyTraits)
    (mapIdx : Int) (number : List Char)
    (hApp : et.hasAppInfo = true) (hTraits : et.familyTraits IS_WINDOWS = some traits)
    (hStyle : traits.mapParamStyle = MapParamStyle.Warp) (hNumber : isDigits number) :
    et.getMapArgs IS_WINDOWS mapIdx (String.mk ('M' :: 'A' :: 'P' :: number))
      = some ["-warp", String.mk number] := by
  rw [getMapArgs_warp_style IS_WINDOWS et traits mapIdx _ hApp hTraits hStyle (by simp [String.length]),
    doom1_no_match_of_MAPnn number hNumber, doom2_match_of_form number hNumber]
  rfl

theorem getMapArgs_warp_MAPnn_witness :
    ((EngineTraits.init.loadAppInfo "/usr/games/prboom-plus" ⟨0, "", ""⟩
        ⟨"", "", ⟨0, 0, 0⟩⟩ "prboom-plus").assignFamilyTraits
        EngineFamily.PrBoom).getMapArgs false 6 "MAP07" = some ["-warp", "07"] :=
  getMapArgs_warp_MAPnn false _ ⟨MapParamStyle.Warp, CompatLevelStyle.PrBoom, "-save", false, false⟩
    6 ['0', '7'] (by decide) (by decide) (by decide) (by decide)

/-! ### Names that follow neither convention -/

theorem doom1_sound (s : List Char) (groups : List String)
    (h : searchFrom doom1MapNameRegex s = some groups) : occursIn isExMy s := by
  obtain ⟨before, rest, hs, hm⟩ := searchFrom_sound _ _ _ h
  obtain ⟨r1, hr1, hm1⟩ := matchHere_lit_sound _ _ _ _ hm
  obtain ⟨episode, r2, g2, hep, hr2, hm2, _⟩ := matchHere_digits_sound _ _ _ hm1
  obtain ⟨r3, hr3, hm3⟩ := matchHere_lit_sound _ _ _ _ hm2
  obtain ⟨map, r4, g4, hmp, hr4, _, _⟩ := matchHere_digits_sound _ _ _ hm3
  refine ⟨before, 'E' :: episode ++ 'M' :: map, r4, ⟨episode, map, hep, hmp, rfl⟩, ?_⟩
  rw [hs, hr1, hr2, hr3, hr4]
  simp

theorem doom2_sound (s : List Char) (groups : List String)
    (h : searchFrom doom2MapNameRegex s = some groups) : occursIn isMAPnn s := by
  obtain ⟨before, rest, hs, hm⟩ := searchFrom_sound _ _ _ h
  obtain ⟨r1, hr1, hm1⟩ := matchHere_lit_sound _ _ _ _ hm
  obtain ⟨r2, hr2, hm2⟩ := matchHere_lit_sound _ _ _ _ hm1
  obtain ⟨r3, hr3, hm3⟩ := matchHere_lit_sound _ _ _ _ hm2
  obtain ⟨number, r4, g4, hn, hr4, _, _⟩ := matchHere_digits_sound _ _ _ hm3
  refine ⟨before, 'M' :: 'A' :: 'P' :: number, r4, ⟨number, hn, rfl⟩, ?_⟩
  rw [hs, hr1, hr2, hr3, hr4]
  simp

theorem mem_E_of_occursIn_isExMy (s : List Char) (h : occursIn isExMy s) : 'E' ∈ s := by
  obtain ⟨before, part, after, ⟨episode, map, _, _, hp⟩, hs⟩ := h
  rw [hs, hp]
  simp

theorem mem_A_of_occursIn_isMAPnn (s : List Char) (h : occursIn isMAPnn s) : 'A' ∈ s := by
  obtain ⟨before, part, after, ⟨number, _, hp⟩, hs⟩ := h
  rw [hs, hp]
  simp

theorem wrapInt_of_isInt (v : Int) (h : isInt v) : wrapInt v = v := by
  unfold isInt at h
  unfold wrapInt
  omega

/-- C10: when the bound row has the numbered-map style (`-warp`), for every non-empty map
name in which neither the form `E<digits>M<digits>` nor the form `MAP<digits>` occurs, and
every map index with `mapIdx + 1` in the range of `int`, `getMapArgs` returns
`["-warp", decimal (mapIdx + 1)]`. -/
theorem getMapArgs_warp_fallback (IS_WINDOWS : Bool) (et : EngineTraits)
    (traits : EngineFamilyTraits) (mapIdx : Int) (mapName : String)
    (hApp : et.hasAppInfo = true) (hTraits : et.familyTraits IS_WINDOWS = some traits)
    (hStyle : traits.mapParamStyle = MapParamStyle.Warp) (hName : mapName ≠ "")
    (hNoExMy : ¬ occursIn isExMy mapName.data) (hNoMAPnn : ¬ occursIn isMAPnn mapName.data)
    (hNext : isInt (mapIdx + 1)) :
    et.getMapArgs IS_WINDOWS mapIdx mapName = some ["-warp", toString (mapIdx + 1)] := by
  have h1 : QRegularExpression_match doom1MapNameRegex mapName = none := by
    cases hm : QRegularExpression_match doom1MapNameRegex mapName with
    | none => rfl
    | some groups => exact absurd (doom1_sound _ _ hm) hNoExMy
  have h2 : QRegularExpression_match doom2MapNameRegex mapName = none := by
    cases hm : QRegularExpression_match doom2MapNameRegex mapName with
    | none => rfl
    | some groups => exact absurd (doom2_sound _ _ hm) hNoMAPnn
  rw [getMapArgs_warp_style IS_WINDOWS et traits mapIdx mapName hApp hTraits hStyle
    (length_ne_zero_of_ne_empty mapName hName), h1, h2]
  simp only [QString_number, wrapInt_of_isInt _ hNext]

theorem getMapArgs_warp_fallback_witness :
    ((EngineTraits.init.loadAppInfo "/usr/games/prboom-plus" ⟨0, "", ""⟩
        ⟨"", "", ⟨0, 0, 0⟩⟩ "prboom-plus").assignFamilyTraits
        EngineFamily.PrBoom).getMapArgs false 3 "MyCustomMap" = some ["-warp", "4"] :=
  getMapArgs_warp_fallback false _
    ⟨MapParamStyle.Warp, CompatLevelStyle.PrBoom, "-save", false, false⟩ 3 "MyCustomMap"
    (by decide) (by decide) (by decide) (by decide)
    (fun h => absurd (mem_E_of_occursIn_isExMy _ h) (by decide))
    (fun h => absurd (mem_A_of_occursIn_isMAPnn _ h) (by decide))
    (by decide)

/-! ## Compatibility level and monitor index arguments -/

theorem appInfo_of_exeBaseName (et : EngineTraits) (name : String)
    (h : et.exeBaseName = some name) :
    ∃ appInfo, et._appInfo = some appInfo ∧ appInfo.exeBaseName = name := by
  unfold EngineTraits.exeBaseName at h
  cases ha : et._appInfo with
  | none => simp [ha] at h
  | some appInfo =>
    refine ⟨appInfo, rfl, ?_⟩
    simpa [ha] using h

/-- C11: for every compatibility level and every bound row of the traits table, an
executable whose base name is "gzdoom" or "vkdoom" gets `["-compatmode", decimal n]`. -/
theorem getCompatLevelArgs_gzdoom_vkdoom (IS_WINDOWS : Bool) (et : EngineTraits)
    (compatLevel : Int) (hTraits : et.hasFamilyTraits = true)
    (hName : et.exeBaseName = some "gzdoom" ∨ et.exeBaseName = some "vkdoom") :
    et.getCompatLevelArgs IS_WINDOWS compatLevel
      = some ["-compatmode", toString compatLevel] := by
  obtain ⟨traits, ht, _⟩ := familyTraits_of_hasFamilyTraits IS_WINDOWS et hTraits
  rcases hName with h | h
  · obtain ⟨appInfo, ha, hn⟩ := appInfo_of_exeBaseName et _ h
    simp [EngineTraits.getCompatLevelArgs, ha, ht, hn, QString_number]
  · obtain ⟨appInfo, ha, hn⟩ := appInfo_of_exeBaseName et _ h
    simp [EngineTraits.getCompatLevelArgs, ha, ht, hn, QString_number]

theorem getCompatLevelArgs_gzdoom_vkdoom_witness :
    ((EngineTraits.init.loadAppInfo "/usr/games/gzdoom" ⟨0, "", ""⟩
        ⟨"", "", ⟨0, 0, 0⟩⟩ "gzdoom").assignFamilyTraits
        EngineFamily.PrBoom).getCompatLevelArgs false 3 = some ["-compatmode", "3"] ∧
    ((EngineTraits.init.loadAppInfo "/opt/vkdoom/vkdoom" ⟨0, "", ""⟩
        ⟨"", "", ⟨0, 0, 0⟩⟩ "vkdoom").assignFamilyTraits
        EngineFamily.ChocolateDoom).getCompatLevelArgs false 3 = some ["-compatmode", "3"] :=
  ⟨getCompatLevelArgs_gzdoom_vkdoom false _ 3 (by decide) (Or.inl (by decide)),
   getCompatLevelArgs_gzdoom_vkdoom false _ 3 (by decide) (Or.inr (by decide))⟩

/-- C12: for every compatibility level and every executable whose base name is neither
"gzdoom" nor "vkdoom", the compatibility style of the bound row alone decides the result of
`getCompatLevelArgs`: `["+compatmode", decimal n]` for the ZDoom style,
`["-complevel", decimal n]` for the PrBoom style, the empty sequence for the style None. -/
theorem getCompatLevelArgs_by_style (IS_WINDOWS : Bool) (et : EngineTraits)
    (traits : EngineFamilyTraits) (name : String) (compatLevel : Int)
    (hName : et.exeBaseName = some name) (hTraits : et.familyTraits IS_WINDOWS = some traits)
    (hNotGZDoom : name ≠ "gzdoom") (hNotVKDoom : name ≠ "vkdoom") :
    (traits.compLvlStyle = CompatLevelStyle.ZDoom →
      et.getCompatLevelArgs IS_WINDOWS compatLevel
        = some ["+compatmode", toString compatLevel]) ∧
    (traits.compLvlStyle = CompatLevelStyle.PrBoom →
      et.getCompatLevelArgs IS_WINDOWS compatLevel
        = some ["-complevel", toString compatLevel]) ∧
    (traits.compLvlStyle = CompatLevelStyle.None →
      et.getCompatLevelArgs IS_WINDOWS compatLevel = some []) := by
  obtain ⟨appInfo, ha, hn⟩ := appInfo_of_exeBaseName et _ hName
  have h1 : ¬ appInfo.exeBaseName = "gzdoom" := by rw [hn]; exact hNotGZDoom
  have h2 : ¬ appInfo.exeBaseName = "vkdoom" := by rw [hn]; exact hNotVKDoom
  refine ⟨?_, ?_, ?_⟩
  · intro hs
    simp [EngineTraits.getCompatLevelArgs, ha, hTraits, h1, h2, hs, QString_number]
  · intro hs
    have hz : ¬ CompatLevelStyle.PrBoom = CompatLevelStyle.ZDoom := by decide
    simp [EngineTraits.getCompatLevelArgs, ha, hTraits, h1, h2, hs, hz, QString_number]
  · intro hs
    have hz : ¬ CompatLevelStyle.None = CompatLevelStyle.ZDoom := by decide
    have hp : ¬ CompatLevelStyle.None = CompatLevelStyle.PrBoom := by decide
    simp [EngineTraits.getCompatLevelArgs, ha, hTraits, h1, h2, hs, hz, hp]

theorem getCompatLevelArgs_by_style_witness :
    ((EngineTraits.init.loadAppInfo "/usr/games/zandronum" ⟨0, "", ""⟩
        ⟨"", "", ⟨0, 0, 0⟩⟩ "zandronum").assignFamilyTraits
        EngineFamily.ZDoom).getCompatLevelArgs false 3 = some ["+compatmode", "3"] ∧
    ((EngineTraits.init.loadAppInfo "/usr/games/prboom-plus" ⟨0, "", ""⟩
        ⟨"", "", ⟨0, 0, 0⟩⟩ "prboom-plus").assignFamilyTraits
        EngineFamily.PrBoom).getCompatLevelArgs false 3 = some ["-complevel", "3"] ∧
    ((EngineTraits.init.loadAppInfo "/usr/games/chocolate-doom" ⟨0, "", ""⟩
        ⟨"", "", ⟨0, 0, 0⟩⟩ "chocolate-doom").assignFamilyTraits
        EngineFamily.ChocolateDoom).getCompatLevelArgs false 3 = some [] :=
  ⟨(getCompatLevelArgs_by_style false _
      ⟨MapParamStyle.Map, CompatLevelStyle.ZDoom, "-savedir", true, false⟩ "zandronum" 3
      (by decide) (by decide) (by decide) (by decide)).1 (by decide),
   (getCompatLevelArgs_by_style false _
      ⟨MapParamStyle.Warp, CompatLevelStyle.PrBoom, "-save", false, false⟩ "prboom-plus" 3
      (by decide) (by decide) (by decide) (by decide)).2.1 (by decide),
   (getCompatLevelArgs_by_style false _
      ⟨MapParamStyle.Warp, CompatLevelStyle.None, "-savedir", false, false⟩ "chocolate-doom" 3
      (by decide) (by decide) (by decide) (by decide)).2.2 (by decide)⟩

/-- C13: for every monitor index `i` with `i` and `i + 1` in the range of `int`, and
whatever row is bound, `getCmdMonitorIndex i` is the decimal numeral of `1 + i` when the
base name of the executable is "zdoom" and the decimal numeral of `i` for every other
executable. -/
theorem getCmdMonitorIndex_by_name (IS_WINDOWS : Bool) (et : EngineTraits) (name : String)
    (ownIndex : Int) (hName : et.exeBaseName = some name)
    (hTraits : et.hasFamilyTraits = true)
    (hIdx : isInt ownIndex) (hNext : isInt (1 + ownIndex)) :
    (name = "zdoom" → et.getCmdMonitorIndex IS_WINDOWS ownIndex
      = some (toString (1 + ownIndex))) ∧
    (name ≠ "zdoom" → et.getCmdMonitorIndex IS_WINDOWS ownIndex = some (toString ownIndex)) := by
  obtain ⟨appInfo, ha, hn⟩ := appInfo_of_exeBaseName et _ hName
  obtain ⟨traits, ht, _⟩ := familyTraits_of_hasFamilyTraits IS_WINDOWS et hTraits
  constructor
  · intro hz
    have hl : startingMonitorIndexes.lookup appInfo.exeBaseName = some 1 := by
      rw [hn, hz]
      decide
    simp only [EngineTraits.getCmdMonitorIndex, ha, ht, hl, QString_number,
      wrapInt_of_isInt _ hNext]
  · intro hz
    have hl : startingMonitorIndexes.lookup appInfo.exeBaseName = none := by
      apply lookup_none_of_not_key
      rw [hn]
      simpa [startingMonitorIndexes] using hz
    simp only [EngineTraits.getCmdMonitorIndex, ha, ht, hl, QString_number, Int.zero_add,
      wrapInt_of_isInt _ hIdx]

theorem getCmdMonitorIndex_by_name_witness :
    ((EngineTraits.init.loadAppInfo "/usr/games/zdoom" ⟨0, "", ""⟩
        ⟨"", "", ⟨0, 0, 0⟩⟩ "zdoom").assignFamilyTraits
        EngineFamily.ChocolateDoom).getCmdMonitorIndex false 0 = some "1" ∧
    ((EngineTraits.init.loadAppInfo "/usr/games/gzdoom" ⟨0, "", ""⟩
        ⟨"", "", ⟨0, 0, 0⟩⟩ "gzdoom").assignFamilyTraits
        EngineFamily.ZDoom).getCmdMonitorIndex false 0 = some "0" :=
  ⟨(getCmdMonitorIndex_by_name false _ "zdoom" 0 (by decide) (by decide) (by decide)
      (by decide)).1 (by decide),
   (getCmdMonitorIndex_by_name false _ "gzdoom" 0 (by decide) (by decide) (by decide)
      (by decide)).2 (by decide)⟩

/-! ## The version gate -/

/-- The comparison of versions is the lexicographic order of the triples
(major, minor, patch). -/
theorem version_le_iff_lex (a b : Version) :
    a ≤ b ↔ toLex (a.major, toLex (a.minor, a.patch))
      ≤ toLex (b.major, toLex (b.minor, b.patch)) := by
  rw [Prod.Lex.le_iff]
  simp only [Prod.Lex.le_iff]
  exact Iff.rfl

theorem length_ne_zero_iff (s : String) : s.length ≠ 0 ↔ s ≠ "" := by
  constructor
  · intro h he
    apply h
    rw [he]
    rfl
  · exact length_ne_zero_of_ne_empty s

theorem isGZDoomVersionOrLater_with_metadata (versionIsValid : Version → Bool)
    (appInfo : AppInfo) (traits : Option (Fin 4)) (atLeastVersion : Version)
    (hName : appInfo.versionInfo.appName ≠ "")
    (hValid : versionIsValid appInfo.versionInfo.version = true) :
    (EngineTraits.mk (some appInfo) traits).isGZDoomVersionOrLater versionIsValid atLeastVersion
      = some (decide (appInfo.versionInfo.appName = "GZDoom" ∧
          atLeastVersion ≤ appInfo.versionInfo.version)) := by
  have hlen := length_ne_zero_of_ne_empty _ hName
  simp only [EngineTraits.isGZDoomVersionOrLater, hlen, hValid, ne_eq, not_false_eq_true,
    and_self, if_true, ge_iff_le]

theorem isGZDoomVersionOrLater_without_metadata (versionIsValid : Version → Bool)
    (appInfo : AppInfo) (traits : Option (Fin 4)) (atLeastVersion : Version)
    (hNone : ¬ (appInfo.versionInfo.appName ≠ "" ∧
      versionIsValid appInfo.versionInfo.version = true)) :
    (EngineTraits.mk (some appInfo) traits).isGZDoomVersionOrLater versionIsValid atLeastVersion
      = some (decide (appInfo.normalizedName = "gzdoom")) := by
  have hc : ¬ (appInfo.versionInfo.appName.length ≠ 0 ∧
      versionIsValid appInfo.versionInfo.version = true) := by
    rw [length_ne_zero_iff]
    exact hNone
  simp only [EngineTraits.isGZDoomVersionOrLater, hc, if_false]

theorem isGZDoomVersionOrLater_total (versionIsValid : Version → Bool)
    (appInfo : AppInfo) (traits : Option (Fin 4)) (atLeastVersion : Version) :
    ∃ later, (EngineTraits.mk (some appInfo) traits).isGZDoomVersionOrLater versionIsValid
      atLeastVersion = some later := by
  by_cases h : appInfo.versionInfo.appName ≠ "" ∧
      versionIsValid appInfo.versionInfo.version = true
  · exact ⟨_, isGZDoomVersionOrLater_with_metadata _ _ _ _ h.1 h.2⟩
  · exact ⟨_, isGZDoomVersionOrLater_without_metadata _ _ _ _ h⟩

/-- C14: for every loaded identity and every threshold version: when version metadata is
available (application name not empty and version valid), `isGZDoomVersionOrLater` is true
exactly when the application name is "GZDoom" and the version of the executable is at or
above the threshold in the lexicographic order of (major, minor, patch); when it is not
available, the result is true exactly when the normalized name is "gzdoom", whatever the
threshold. -/
theorem isGZDoomVersionOrLater_cases (versionIsValid : Version → Bool) (appInfo : AppInfo)
    (traits : Option (Fin 4)) (atLeastVersion : Version) :
    (appInfo.versionInfo.appName ≠ "" ∧ versionIsValid appInfo.versionInfo.version = true →
      ∃ later, (EngineTraits.mk (some appInfo) traits).isGZDoomVersionOrLater versionIsValid
          atLeastVersion = some later ∧
        (later = true ↔ appInfo.versionInfo.appName = "GZDoom" ∧
          toLex (atLeastVersion.major, toLex (atLeastVersion.minor, atLeastVersion.patch))
            ≤ toLex (appInfo.versionInfo.version.major,
                toLex (appInfo.versionInfo.version.minor,
                  appInfo.versionInfo.version.patch)))) ∧
    (¬ (appInfo.versionInfo.appName ≠ "" ∧
        versionIsValid appInfo.versionInfo.version = true) →
      ∃ later, (EngineTraits.mk (some appInfo) traits).isGZDoomVersionOrLater versionIsValid
          atLeastVersion = some later ∧
        (later = true ↔ appInfo.normalizedName = "gzdoom")) := by
  constructor
  · intro h
    refine ⟨_, isGZDoomVersionOrLater_with_metadata _ _ _ _ h.1 h.2, ?_⟩
    rw [← version_le_iff_lex]
    simp
  · intro h
    refine ⟨_, isGZDoomVersionOrLater_without_metadata _ _ _ _ h, ?_⟩
    simp

theorem isGZDoomVersionOrLater_cases_witness :
    (∃ later, (EngineTraits.init.loadAppInfo "C:/Games/GZDoom/gzdoom.exe" ⟨0, "", ""⟩
          ⟨"GZDoom", "", ⟨4, 10, 2⟩⟩ "GZDoom").isGZDoomVersionOrLater
          (fun v => decide (v ≠ ⟨0, 0, 0⟩)) ⟨4, 9, 0⟩ = some later ∧
        (later = true ↔ "GZDoom" = "GZDoom" ∧
          toLex (4, toLex (9, 0)) ≤ toLex (4, toLex (10, 2)))) ∧
    (∃ later, (EngineTraits.init.loadAppInfo "/usr/games/gzdoom" ⟨0, "", ""⟩
          ⟨"", "", ⟨0, 0, 0⟩⟩ "gzdoom").isGZDoomVersionOrLater
          (fun v => decide (v ≠ ⟨0, 0, 0⟩)) ⟨4, 9, 0⟩ = some later ∧
        (later = true ↔ "gzdoom" = "gzdoom")) :=
  ⟨(isGZDoomVersionOrLater_cases (fun v => decide (v ≠ ⟨0, 0, 0⟩))
      (os.loadAppInfo "C:/Games/GZDoom/gzdoom.exe" ⟨0, "", ""⟩ ⟨"GZDoom", "", ⟨4, 10, 2⟩⟩
        "GZDoom") none ⟨4, 9, 0⟩).1 (by decide),
   (isGZDoomVersionOrLater_cases (fun v => decide (v ≠ ⟨0, 0, 0⟩))
      (os.loadAppInfo "/usr/games/gzdoom" ⟨0, "", ""⟩ ⟨"", "", ⟨0, 0, 0⟩⟩
        "gzdoom") none ⟨4, 9, 0⟩).2 (by decide)⟩

/-! ## Default directories -/

theorem windows_dir_choice (host : Host) (versionIsValid : Version → Bool)
    (appInfo : AppInfo) (traits : Option (Fin 4)) (modern : String) :
    (match (EngineTraits.mk (some appInfo) traits).isGZDoomVersionOrLater versionIsValid
        ⟨4, 9, 0⟩ with
      | none => none
      | some later =>
        if later = true ∧ host.isValidFile (host.getPathFromEntryName
            (host.getParentDir appInfo.exePath) "gzdoom_portable.ini") = false then
          some modern
        else
          some (host.getParentDir appInfo.exePath))
      = some (if modernLayout host versionIsValid appInfo traits then modern
          else host.getParentDir appInfo.exePath) := by
  obtain ⟨later, hl⟩ := isGZDoomVersionOrLater_total versionIsValid appInfo traits ⟨4, 9, 0⟩
  simp only [modernLayout, portableMarkerPresent, hl, Option.some.injEq]
  split <;> rfl

theorem getDefaultConfigDir_windows (host : Host) (versionIsValid : Version → Bool)
    (appInfo : AppInfo) (traits : Option (Fin 4)) :
    (EngineTraits.mk (some appInfo) traits).getDefaultConfigDir true host versionIsValid
      = some (if modernLayout host versionIsValid appInfo traits then
          host.getDocumentsDir ++ "/My Games/GZDoom"
        else host.getParentDir appInfo.exePath) := by
  simp only [EngineTraits.getDefaultConfigDir, if_true]
  exact windows_dir_choice host versionIsValid appInfo traits _

theorem getDefaultDataDir_windows (host : Host) (versionIsValid : Version → Bool)
    (appInfo : AppInfo) (traits : Option (Fin 4)) :
    (EngineTraits.mk (some appInfo) traits).getDefaultDataDir true host versionIsValid
      = some (if modernLayout host versionIsValid appInfo traits then
          host.getSavedGamesDir ++ "/GZDoom"
        else host.getParentDir appInfo.exePath) := by
  simp only [EngineTraits.getDefaultDataDir, if_true]
  exact windows_dir_choice host versionIsValid appInfo traits _

theorem getDefaultScreenshotDir_windows (host : Host) (versionIsValid : Version → Bool)
    (appInfo : AppInfo) (traits : Option (Fin 4)) :
    (EngineTraits.mk (some appInfo) traits).getDefaultScreenshotDir true host versionIsValid
      = some (if modernLayout host versionIsValid appInfo traits then
          host.getPicturesDir ++ "/Screenshots/GZDoom"
        else host.getParentDir appInfo.exePath) := by
  simp only [EngineTraits.getDefaultScreenshotDir, if_true]
  exact windows_dir_choice host versionIsValid appInfo traits _

theorem getDefaultConfigDir_other (host : Host) (versionIsValid : Version → Bool)
    (appInfo : AppInfo) (traits : Option (Fin 4)) :
    (EngineTraits.mk (some appInfo) traits).getDefaultConfigDir false host versionIsValid
      = some (host.getConfigDirForApp appInfo.exePath) := by
  simp [EngineTraits.getDefaultConfigDir]

theorem getDefaultDataDir_other (host : Host) (versionIsValid : Version → Bool)
    (appInfo : AppInfo) (traits : Option (Fin 4)) :
    (EngineTraits.mk (some appInfo) traits).getDefaultDataDir false host versionIsValid
      = (EngineTraits.mk (some appInfo) traits).getDefaultConfigDir false host
          versionIsValid := by
  simp [EngineTraits.getDefaultDataDir]

theorem getDefaultDataDir_total (IS_WINDOWS : Bool) (host : Host)
    (versionIsValid : Version → Bool) (appInfo : AppInfo) (traits : Option (Fin 4)) :
    ∃ dataDir, (EngineTraits.mk (some appInfo) traits).getDefaultDataDir IS_WINDOWS host
      versionIsValid = some dataDir := by
  cases IS_WINDOWS with
  | true => exact ⟨_, getDefaultDataDir_windows host versionIsValid appInfo traits⟩
  | false =>
    rw [getDefaultDataDir_other, getDefaultConfigDir_other]
    exact ⟨_, rfl⟩

theorem isGZDoomVersionOrLater_of_GZDoom (versionIsValid : Version → Bool)
    (appInfo : AppInfo) (traits : Option (Fin 4)) (atLeastVersion version : Version)
    (hName : appInfo.versionInfo.appName = "GZDoom")
    (hVersion : appInfo.versionInfo.version = version)
    (hValid : versionIsValid version = true) :
    (EngineTraits.mk (some appInfo) traits).isGZDoomVersionOrLater versionIsValid atLeastVersion
      = some (decide (atLeastVersion ≤ version)) := by
  have hne : appInfo.versionInfo.appName ≠ "" := by
    rw [hName]
    decide
  rw [isGZDoomVersionOrLater_with_metadata versionIsValid appInfo traits atLeastVersion hne
    (by rw [hVersion]; exact hValid)]
  simp [hName, hVersion]

/-- C15: on a Windows host, `getDefaultConfigDir` returns `<Documents>/My Games/GZDoom`
when the engine is GZDoom at or above 4.9.0 and the file `gzdoom_portable.ini` is absent
from the directory of the executable, and the directory of the executable in every other
case. For an executable whose version metadata names GZDoom: 4.8.0 without the marker
gives the directory of the executable, 4.9.0 without the marker the path under Documents,
4.9.0 with the marker the directory of the executable. -/
theorem getDefaultConfigDir_on_windows (host : Host) (versionIsValid : Version → Bool)
    (appInfo : AppInfo) (traits : Option (Fin 4)) :
    (modernLayout host versionIsValid appInfo traits →
      (EngineTraits.mk (some appInfo) traits).getDefaultConfigDir true host versionIsValid
        = some (host.getDocumentsDir ++ "/My Games/GZDoom")) ∧
    (¬ modernLayout host versionIsValid appInfo traits →
      (EngineTraits.mk (some appInfo) traits).getDefaultConfigDir true host versionIsValid
        = some (host.getParentDir appInfo.exePath)) ∧
    (appInfo.versionInfo.appName = "GZDoom" →
      versionIsValid appInfo.versionInfo.version = true →
      (appInfo.versionInfo.version = ⟨4, 8, 0⟩ → portableMarkerPresent host appInfo = false →
        (EngineTraits.mk (some appInfo) traits).getDefaultConfigDir true host versionIsValid
          = some (host.getParentDir appInfo.exePath)) ∧
      (appInfo.versionInfo.version = ⟨4, 9, 0⟩ → portableMarkerPresent host appInfo = false →
        (EngineTraits.mk (some appInfo) traits).getDefaultConfigDir true host versionIsValid
          = some (host.getDocumentsDir ++ "/My Games/GZDoom")) ∧
      (appInfo.versionInfo.version = ⟨4, 9, 0⟩ → portableMarkerPresent host appInfo = true →
        (EngineTraits.mk (some appInfo) traits).getDefaultConfigDir true host versionIsValid
          = some (host.getParentDir appInfo.exePath))) := by
  refine ⟨?_, ?_, ?_⟩
  · intro h
    rw [getDefaultConfigDir_windows, if_pos h]
  · intro h
    rw [getDefaultConfigDir_windows, if_neg h]
  · intro hName hValid
    refine ⟨?_, ?_, ?_⟩
    · intro hv hm
      have hg := isGZDoomVersionOrLater_of_GZDoom versionIsValid appInfo traits ⟨4, 9, 0⟩
        ⟨4, 8, 0⟩ hName hv (hv ▸ hValid)
      have hn : ¬ modernLayout host versionIsValid appInfo traits := by
        intro h
        have h1 := h.1
        rw [hg] at h1
        revert h1
        decide
      rw [getDefaultConfigDir_windows, if_neg hn]
    · intro hv hm
      have hg := isGZDoomVersionOrLater_of_GZDoom versionIsValid appInfo traits ⟨4, 9, 0⟩
        ⟨4, 9, 0⟩ hName hv (hv ▸ hValid)
      have hp : modernLayout host versionIsValid appInfo traits := ⟨hg, hm⟩
      rw [getDefaultConfigDir_windows, if_pos hp]
    · intro hv hm
      have hn : ¬ modernLayout host versionIsValid appInfo traits := by
        intro h
        rw [h.2] at hm
        cases hm
      rw [getDefaultConfigDir_windows, if_neg hn]

theorem getDefaultConfigDir_on_windows_witness :
    (EngineTraits.mk (some (exampleGZDoomOnWindows ⟨4, 10, 0⟩)) none).getDefaultConfigDir true
        (exampleWindowsHost false) exampleVersionIsValid
      = some "E:/Youda/Documents/My Games/GZDoom" ∧
    (EngineTraits.mk (some (exampleGZDoomOnWindows ⟨4, 10, 0⟩)) none).getDefaultConfigDir true
        (exampleWindowsHost true) exampleVersionIsValid
      = some "E:/Youda/Projects/DoomRunner/TestDoomDir/GZDoom" ∧
    (EngineTraits.mk (some (exampleGZDoomOnWindows ⟨4, 8, 0⟩)) none).getDefaultConfigDir true
        (exampleWindowsHost false) exampleVersionIsValid
      = some "E:/Youda/Projects/DoomRunner/TestDoomDir/GZDoom" :=
  ⟨(getDefaultConfigDir_on_windows (exampleWindowsHost false) exampleVersionIsValid
      (exampleGZDoomOnWindows ⟨4, 10, 0⟩) none).1 (by decide),
   (getDefaultConfigDir_on_windows (exampleWindowsHost true) exampleVersionIsValid
      (exampleGZDoomOnWindows ⟨4, 10, 0⟩) none).2.1 (by decide),
   ((getDefaultConfigDir_on_windows (exampleWindowsHost false) exampleVersionIsValid
      (exampleGZDoomOnWindows ⟨4, 8, 0⟩) none).2.2 (by decide) (by decide)).1 (by decide)
      (by decide)⟩

theorem getDefaultSaveDir_loaded (IS_WINDOWS : Bool) (host : Host)
    (versionIsValid : Version → Bool) (appInfo : AppInfo) (traits : Option (Fin 4))
    (later : Bool)
    (hLater : (EngineTraits.mk (some appInfo) traits).isGZDoomVersionOrLater versionIsValid
      ⟨4, 11, 0⟩ = some later) :
    (EngineTraits.mk (some appInfo) traits).getDefaultSaveDir IS_WINDOWS host versionIsValid
      = ((EngineTraits.mk (some appInfo) traits).getDefaultDataDir IS_WINDOWS host
          versionIsValid).map (fun dataDir =>
            if later = true then dataDir ++ "/savegames" else dataDir) := by
  obtain ⟨dataDir, hd⟩ := getDefaultDataDir_total IS_WINDOWS host versionIsValid appInfo traits
  simp only [EngineTraits.getDefaultSaveDir, hd, hLater, Option.map_some']
  split <;> rfl

/-- C16: for every loaded identity and every host, `getDefaultSaveDir` is
`getDefaultDataDir` followed by "/savegames" when the engine is GZDoom at or above 4.11.0,
and `getDefaultDataDir` unchanged otherwise. With version metadata that names GZDoom,
version 4.10.0 gives the data directory itself and version 4.11.0 the nested directory. -/
theorem getDefaultSaveDir_nesting (IS_WINDOWS : Bool) (host : Host)
    (versionIsValid : Version → Bool) (appInfo : AppInfo) (traits : Option (Fin 4)) :
    ((EngineTraits.mk (some appInfo) traits).getDefaultDataDir IS_WINDOWS host
        versionIsValid).isSome = true ∧
    ((EngineTraits.mk (some appInfo) traits).isGZDoomVersionOrLater versionIsValid ⟨4, 11, 0⟩
        = some true →
      (EngineTraits.mk (some appInfo) traits).getDefaultSaveDir IS_WINDOWS host versionIsValid
        = ((EngineTraits.mk (some appInfo) traits).getDefaultDataDir IS_WINDOWS host
            versionIsValid).map (fun dataDir => dataDir ++ "/savegames")) ∧
    ((EngineTraits.mk (some appInfo) traits).isGZDoomVersionOrLater versionIsValid ⟨4, 11, 0⟩
        ≠ some true →
      (EngineTraits.mk (some appInfo) traits).getDefaultSaveDir IS_WINDOWS host versionIsValid
        = (EngineTraits.mk (some appInfo) traits).getDefaultDataDir IS_WINDOWS host
            versionIsValid) ∧
    (appInfo.versionInfo.appName = "GZDoom" →
      versionIsValid appInfo.versionInfo.version = true →
      (appInfo.versionInfo.version = ⟨4, 10, 0⟩ →
        (EngineTraits.mk (some appInfo) traits).getDefaultSaveDir IS_WINDOWS host
            versionIsValid
          = (EngineTraits.mk (some appInfo) traits).getDefaultDataDir IS_WINDOWS host
              versionIsValid) ∧
      (appInfo.versionInfo.version = ⟨4, 11, 0⟩ →
        (EngineTraits.mk (some appInfo) traits).getDefaultSaveDir IS_WINDOWS host
            versionIsValid
          = ((EngineTraits.mk (some appInfo) traits).getDefaultDataDir IS_WINDOWS host
              versionIsValid).map (fun dataDir => dataDir ++ "/savegames"))) := by
  obtain ⟨dataDir, hd⟩ := getDefaultDataDir_total IS_WINDOWS host versionIsValid appInfo traits
  obtain ⟨later, hl⟩ := isGZDoomVersionOrLater_total versionIsValid appInfo traits ⟨4, 11, 0⟩
  refine ⟨by rw [hd]; rfl, ?_, ?_, ?_⟩
  · intro h
    rw [getDefaultSaveDir_loaded IS_WINDOWS host versionIsValid appInfo traits true h]
    simp
  · intro h
    have hf : later = false := by
      cases later with
      | true => exact absurd hl h
      | false => rfl
    rw [getDefaultSaveDir_loaded IS_WINDOWS host versionIsValid appInfo traits later hl, hf, hd]
    simp
  · intro hName hValid
    constructor
    · intro hv
      have hg := isGZDoomVersionOrLater_of_GZDoom versionIsValid appInfo traits ⟨4, 11, 0⟩
        ⟨4, 10, 0⟩ hName hv (hv ▸ hValid)
      rw [show decide ((⟨4, 11, 0⟩ : Version) ≤ ⟨4, 10, 0⟩) = false by decide] at hg
      rw [getDefaultSaveDir_loaded IS_WINDOWS host versionIsValid appInfo traits _ hg, hd]
      simp
    · intro hv
      have hg := isGZDoomVersionOrLater_of_GZDoom versionIsValid appInfo traits ⟨4, 11, 0⟩
        ⟨4, 11, 0⟩ hName hv (hv ▸ hValid)
      rw [show decide ((⟨4, 11, 0⟩ : Version) ≤ ⟨4, 11, 0⟩) = true by decide] at hg
      rw [getDefaultSaveDir_loaded IS_WINDOWS host versionIsValid appInfo traits _ hg, hd]
      simp

theorem getDefaultSaveDir_nesting_witness :
    (EngineTraits.mk (some (exampleGZDoomOnWindows ⟨4, 11, 0⟩)) none).getDefaultSaveDir true
        (exampleWindowsHost false) exampleVersionIsValid
      = some "E:/Youda/Saved Games/GZDoom/savegames" ∧
    (EngineTraits.mk (some (exampleGZDoomOnWindows ⟨4, 10, 0⟩)) none).getDefaultSaveDir true
        (exampleWindowsHost false) exampleVersionIsValid
      = some "E:/Youda/Saved Games/GZDoom" ∧
    (EngineTraits.mk (some exampleGZDoomOnLinux) none).getDefaultSaveDir false
        exampleLinuxHost exampleVersionIsValid
      = some "/home/youda/.config/gzdoom/savegames" :=
  ⟨((getDefaultSaveDir_nesting true (exampleWindowsHost false) exampleVersionIsValid
      (exampleGZDoomOnWindows ⟨4, 11, 0⟩) none).2.2.2 (by decide) (by decide)).2 (by decide),
   (getDefaultSaveDir_nesting true (exampleWindowsHost false) exampleVersionIsValid
      (exampleGZDoomOnWindows ⟨4, 10, 0⟩) none).2.2.1 (by decide),
   (getDefaultSaveDir_nesting false exampleLinuxHost exampleVersionIsValid
      exampleGZDoomOnLinux none).2.1 (by decide)⟩

/-- C17: on a Windows host the data directory and the screenshot directory follow the
modern-layout condition of the configuration directory (GZDoom at or above 4.9.0 and no
`gzdoom_portable.ini` beside the executable): when it holds they are `<SavedGames>/GZDoom`
and `<Pictures>/Screenshots/GZDoom`, and when it does not hold the configuration, data and
screenshot directories all are the directory of the executable. -/
theorem windows_data_and_screenshot_dir (host : Host) (versionIsValid : Version → Bool)
    (appInfo : AppInfo) (traits : Option (Fin 4)) :
    (modernLayout host versionIsValid appInfo traits →
      (EngineTraits.mk (some appInfo) traits).getDefaultConfigDir true host versionIsValid
        = some (host.getDocumentsDir ++ "/My Games/GZDoom") ∧
      (EngineTraits.mk (some appInfo) traits).getDefaultDataDir true host versionIsValid
        = some (host.getSavedGamesDir ++ "/GZDoom") ∧
      (EngineTraits.mk (some appInfo) traits).getDefaultScreenshotDir true host versionIsValid
        = some (host.getPicturesDir ++ "/Screenshots/GZDoom")) ∧
    (¬ modernLayout host versionIsValid appInfo traits →
      (EngineTraits.mk (some appInfo) traits).getDefaultConfigDir true host versionIsValid
        = some (host.getParentDir appInfo.exePath) ∧
      (EngineTraits.mk (some appInfo) traits).getDefaultDataDir true host versionIsValid
        = some (host.getParentDir appInfo.exePath) ∧
      (EngineTraits.mk (some appInfo) traits).getDefaultScreenshotDir true host versionIsValid
        = some (host.getParentDir appInfo.exePath)) := by
  constructor
  · intro h
    rw [getDefaultConfigDir_windows, getDefaultDataDir_windows, getDefaultScreenshotDir_windows,
      if_pos h, if_pos h, if_pos h]
    exact ⟨rfl, rfl, rfl⟩
  · intro h
    rw [getDefaultConfigDir_windows, getDefaultDataDir_windows, getDefaultScreenshotDir_windows,
      if_neg h, if_neg h, if_neg h]
    exact ⟨rfl, rfl, rfl⟩

theorem windows_data_and_screenshot_dir_witness :
    ((EngineTraits.mk (some (exampleGZDoomOnWindows ⟨4, 10, 0⟩)) none).getDefaultConfigDir true
          (exampleWindowsHost false) exampleVersionIsValid
        = some "E:/Youda/Documents/My Games/GZDoom" ∧
      (EngineTraits.mk (some (exampleGZDoomOnWindows ⟨4, 10, 0⟩)) none).getDefaultDataDir true
          (exampleWindowsHost false) exampleVersionIsValid
        = some "E:/Youda/Saved Games/GZDoom" ∧
      (EngineTraits.mk (some (exampleGZDoomOnWindows ⟨4, 10, 0⟩)) none).getDefaultScreenshotDir
          true (exampleWindowsHost false) exampleVersionIsValid
        = some "E:/Youda/Pictures/Screenshots/GZDoom") ∧
    ((EngineTraits.mk (some (exampleGZDoomOnWindows ⟨4, 10, 0⟩)) none).getDefaultConfigDir true
          (exampleWindowsHost true) exampleVersionIsValid
        = some "E:/Youda/Projects/DoomRunner/TestDoomDir/GZDoom" ∧
      (EngineTraits.mk (some (exampleGZDoomOnWindows ⟨4, 10, 0⟩)) none).getDefaultDataDir true
          (exampleWindowsHost true) exampleVersionIsValid
        = some "E:/Youda/Projects/DoomRunner/TestDoomDir/GZDoom" ∧
      (EngineTraits.mk (some (exampleGZDoomOnWindows ⟨4, 10, 0⟩)) none).getDefaultScreenshotDir
          true (exampleWindowsHost true) exampleVersionIsValid
        = some "E:/Youda/Projects/DoomRunner/TestDoomDir/GZDoom") :=
  ⟨(windows_data_and_screenshot_dir (exampleWindowsHost false) exampleVersionIsValid
      (exampleGZDoomOnWindows ⟨4, 10, 0⟩) none).1 (by decide),
   (windows_data_and_screenshot_dir (exampleWindowsHost true) exampleVersionIsValid
      (exampleGZDoomOnWindows ⟨4, 10, 0⟩) none).2 (by decide)⟩

/-- C18: on a host that is not Windows, for every loaded identity, the data directory is
the configuration directory (the one `os::getConfigDirForApp` gives for the executable) and
the screenshot directory is the data directory followed by "/screenshots"; neither the
name of the engine, nor its version metadata, nor a marker file changes that. -/
theorem other_hosts_data_and_screenshot_dir (host : Host) (versionIsValid : Version → Bool)
    (appInfo : AppInfo) (traits : Option (Fin 4)) :
    (EngineTraits.mk (some appInfo) traits).getDefaultConfigDir false host versionIsValid
      = some (host.getConfigDirForApp appInfo.exePath) ∧
    (EngineTraits.mk (some appInfo) traits).getDefaultDataDir false host versionIsValid
      = (EngineTraits.mk (some appInfo) traits).getDefaultConfigDir false host versionIsValid ∧
    (EngineTraits.mk (some appInfo) traits).getDefaultScreenshotDir false host versionIsValid
      = ((EngineTraits.mk (some appInfo) traits).getDefaultDataDir false host
          versionIsValid).map (fun dataDir => dataDir ++ "/screenshots") := by
  refine ⟨getDefaultConfigDir_other host versionIsValid appInfo traits,
    getDefaultDataDir_other host versionIsValid appInfo traits, ?_⟩
  simp [EngineTraits.getDefaultScreenshotDir]

/-- C19: for every loaded identity, `baseDirStyleForSaveFiles` is `SaveDir` when the engine
is GZDoom at or above 4.9.0 and `WorkingDir` otherwise. The function takes neither the host
nor the file system: the result is the same on every host, with or without the marker
file. -/
theorem baseDirStyleForSaveFiles_gate (versionIsValid : Version → Bool) (appInfo : AppInfo)
    (traits : Option (Fin 4)) :
    ((EngineTraits.mk (some appInfo) traits).isGZDoomVersionOrLater versionIsValid ⟨4, 9, 0⟩
        = some true →
      (EngineTraits.mk (some appInfo) traits).baseDirStyleForSaveFiles versionIsValid
        = some EngineTraits.SaveBaseDir.SaveDir) ∧
    ((EngineTraits.mk (some appInfo) traits).isGZDoomVersionOrLater versionIsValid ⟨4, 9, 0⟩
        ≠ some true →
      (EngineTraits.mk (some appInfo) traits).baseDirStyleForSaveFiles versionIsValid
        = some EngineTraits.SaveBaseDir.WorkingDir) := by
  obtain ⟨later, hl⟩ := isGZDoomVersionOrLater_total versionIsValid appInfo traits ⟨4, 9, 0⟩
  constructor
  · intro h
    simp [EngineTraits.baseDirStyleForSaveFiles, h]
  · intro h
    have hf : later = false := by
      cases later with
      | true => exact absurd hl h
      | false => rfl
    simp [EngineTraits.baseDirStyleForSaveFiles, hl, hf]

theorem baseDirStyleForSaveFiles_gate_witness :
    (EngineTraits.mk (some (exampleGZDoomOnWindows ⟨4, 9, 0⟩)) none).baseDirStyleForSaveFiles
        exampleVersionIsValid = some EngineTraits.SaveBaseDir.SaveDir ∧
    (EngineTraits.mk (some (exampleGZDoomOnWindows ⟨4, 8, 2⟩)) none).baseDirStyleForSaveFiles
        exampleVersionIsValid = some EngineTraits.SaveBaseDir.WorkingDir :=
  ⟨(baseDirStyleForSaveFiles_gate exampleVersionIsValid
      (exampleGZDoomOnWindows ⟨4, 9, 0⟩) none).1 (by decide),
   (baseDirStyleForSaveFiles_gate exampleVersionIsValid
      (exampleGZDoomOnWindows ⟨4, 8, 2⟩) none).2 (by decide)⟩

/-! ## Catalogs of compatibility levels -/

/-- C20: `getCompatLevels` returns 10 entries for the ZDoom style, 22 entries for the
PrBoom style, and no entry for the style None and for any other value of the style. -/
theorem getCompatLevels_length (style : CompatLevelStyle) :
    (getCompatLevels CompatLevelStyle.ZDoom).length = 10 ∧
    (getCompatLevels CompatLevelStyle.PrBoom).length = 22 ∧
    (getCompatLevels CompatLevelStyle.None).length = 0 ∧
    (style ≠ CompatLevelStyle.ZDoom → style ≠ CompatLevelStyle.PrBoom →
      (getCompatLevels style).length = 0) := by
  refine ⟨by decide, by decide, by decide, ?_⟩
  intro hz hp
  simp [getCompatLevels, hz, hp, noCompatLevels]

theorem getCompatLevels_length_witness :
    (getCompatLevels CompatLevelStyle.ZDoom).length = 10 ∧
    (getCompatLevels CompatLevelStyle.PrBoom).length = 22 ∧
    (getCompatLevels CompatLevelStyle.None).length = 0 ∧
    (getCompatLevels ⟨7⟩).length = 0 :=
  ⟨(getCompatLevels_length ⟨7⟩).1, (getCompatLevels_length ⟨7⟩).2.1,
   (getCompatLevels_length ⟨7⟩).2.2.1,
   (getCompatLevels_length ⟨7⟩).2.2.2 (by decide) (by decide)⟩

/-! ## The key of the name-based lookups -/

/-- C21 does not hold on the code: `getCompatLevelArgs` and `getCmdMonitorIndex` compare
and look up `exeBaseName()`, not `normalizedName()`. The executables `gzdoom` and
`GZDoom.exe` have the same normalized name, the same version metadata and the same bound
row, yet get `-compatmode` and `+compatmode`; the executables `zdoom` and `ZDoom.exe`
agree in the same way, yet get the monitor indexes "1" and "0". -/
theorem lookups_read_exeBaseName :
    ((os.loadAppInfo "/usr/games/gzdoom" ⟨0, "", ""⟩ ⟨"", "", ⟨0, 0, 0⟩⟩ "").normalizedName
        = (os.loadAppInfo "C:/Games/GZDoom.exe" ⟨0, "", ""⟩ ⟨"", "", ⟨0, 0, 0⟩⟩
            "").normalizedName ∧
      (os.loadAppInfo "/usr/games/gzdoom" ⟨0, "", ""⟩ ⟨"", "", ⟨0, 0, 0⟩⟩ "").versionInfo
        = (os.loadAppInfo "C:/Games/GZDoom.exe" ⟨0, "", ""⟩ ⟨"", "", ⟨0, 0, 0⟩⟩
            "").versionInfo ∧
      ((EngineTraits.init.loadAppInfo "/usr/games/gzdoom" ⟨0, "", ""⟩ ⟨"", "", ⟨0, 0, 0⟩⟩
          "").assignFamilyTraits EngineFamily.ZDoom).getCompatLevelArgs false 3
        = some ["-compatmode", "3"] ∧
      ((EngineTraits.init.loadAppInfo "C:/Games/GZDoom.exe" ⟨0, "", ""⟩ ⟨"", "", ⟨0, 0, 0⟩⟩
          "").assignFamilyTraits EngineFamily.ZDoom).getCompatLevelArgs false 3
        = some ["+compatmode", "3"]) ∧
    ((os.loadAppInfo "/usr/games/zdoom" ⟨0, "", ""⟩ ⟨"", "", ⟨0, 0, 0⟩⟩ "").normalizedName
        = (os.loadAppInfo "C:/Games/ZDoom.exe" ⟨0, "", ""⟩ ⟨"", "", ⟨0, 0, 0⟩⟩
            "").normalizedName ∧
      (os.loadAppInfo "/usr/games/zdoom" ⟨0, "", ""⟩ ⟨"", "", ⟨0, 0, 0⟩⟩ "").versionInfo
        = (os.loadAppInfo "C:/Games/ZDoom.exe" ⟨0, "", ""⟩ ⟨"", "", ⟨0, 0, 0⟩⟩
            "").versionInfo ∧
      ((EngineTraits.init.loadAppInfo "/usr/games/zdoom" ⟨0, "", ""⟩ ⟨"", "", ⟨0, 0, 0⟩⟩
          "").assignFamilyTraits EngineFamily.ZDoom).getCmdMonitorIndex false 0
        = some "1" ∧
      ((EngineTraits.init.loadAppInfo "C:/Games/ZDoom.exe" ⟨0, "", ""⟩ ⟨"", "", ⟨0, 0, 0⟩⟩
          "").assignFamilyTraits EngineFamily.ZDoom).getCmdMonitorIndex false 0
        = some "0") := by
  decide

/-! ## Map names that only contain a numbered form -/

/-- C22, as stated, fails: the two patterns are searched anywhere in the name. For a family
of the numbered-map style the name "CAVE1M2X" at index 3 gets `["-warp", "1", "2"]` and
the name "TITLEMAP1" gets `["-warp", "1"]`, neither gets the positional
`["-warp", "4"]`. -/
theorem getMapArgs_fragment_is_matched :
    (((EngineTraits.init.loadAppInfo "/usr/games/prboom-plus" ⟨0, "", ""⟩
          ⟨"", "", ⟨0, 0, 0⟩⟩ "prboom-plus").assignFamilyTraits
          EngineFamily.PrBoom).getMapArgs false 3 "CAVE1M2X" = some ["-warp", "1", "2"] ∧
      ((EngineTraits.init.loadAppInfo "/usr/games/prboom-plus" ⟨0, "", ""⟩
          ⟨"", "", ⟨0, 0, 0⟩⟩ "prboom-plus").assignFamilyTraits
          EngineFamily.PrBoom).getMapArgs false 3 "TITLEMAP1" = some ["-warp", "1"]) ∧
    (((EngineTraits.init.loadAppInfo "/usr/games/prboom-plus" ⟨0, "", ""⟩
          ⟨"", "", ⟨0, 0, 0⟩⟩ "prboom-plus").assignFamilyTraits
          EngineFamily.PrBoom).getMapArgs false 3 "CAVE1M2X" ≠ some ["-warp", "4"] ∧
      ((EngineTraits.init.loadAppInfo "/usr/games/prboom-plus" ⟨0, "", ""⟩
          ⟨"", "", ⟨0, 0, 0⟩⟩ "prboom-plus").assignFamilyTraits
          EngineFamily.PrBoom).getMapArgs false 3 "TITLEMAP1" ≠ some ["-warp", "4"]) := by
  decide

theorem takeWhile_dropWhile_isDigit (l : List Char) :
    (l.dropWhile Char.isDigit).takeWhile Char.isDigit = [] := by
  induction l with
  | nil => rfl
  | cons c cs ih =>
    by_cases h : c.isDigit = true
    · simp [List.dropWhile, h, ih]
    · simp [List.dropWhile, List.takeWhile, h]

theorem matchHere_digits_last (ds after : List Char) (hds : isDigits ds) :
    matchHere [RegexItem.digits] (ds ++ after)
      = some [String.mk (ds ++ after.takeWhile Char.isDigit)] := by
  have hrun : isDigits (ds ++ after.takeWhile Char.isDigit) := by
    constructor
    · intro he
      exact hds.1 (List.append_eq_nil.mp he).1
    · intro c hc
      rcases List.mem_append.mp hc with h | h
      · exact hds.2 c h
      · exact List.mem_takeWhile_imp h
  have h := matchHere_digits_of_run [] (ds ++ after.takeWhile Char.isDigit)
    (after.dropWhile Char.isDigit) [] hrun (takeWhile_dropWhile_isDigit after)
    (by simp [matchHere])
  rw [List.append_assoc, List.takeWhile_append_dropWhile] at h
  exact h

theorem doom1_matchHere_of_occurrence (episode map after : List Char)
    (he : isDigits episode) (hm : isDigits map) :
    matchHere doom1MapNameRegex ('E' :: episode ++ 'M' :: map ++ after)
      = some [String.mk episode, String.mk (map ++ after.takeWhile Char.isDigit)] := by
  have h1 : matchHere [RegexItem.lit 'M', RegexItem.digits] ('M' :: map ++ after)
      = some [String.mk (map ++ after.takeWhile Char.isDigit)] := by
    simpa [matchHere] using matchHere_digits_last map after hm
  have h0 := matchHere_digits_of_run [RegexItem.lit 'M', RegexItem.digits] episode
    ('M' :: map ++ after) _ he (by simp [List.takeWhile]) h1
  simpa [doom1MapNameRegex, matchHere] using h0

theorem doom2_matchHere_of_occurrence (number after : List Char) (hn : isDigits number) :
    matchHere doom2MapNameRegex ('M' :: 'A' :: 'P' :: number ++ after)
      = some [String.mk (number ++ after.takeWhile Char.isDigit)] := by
  simpa [doom2MapNameRegex, matchHere] using matchHere_digits_last number after hn

theorem searchFrom_some_of_suffix (re : List RegexItem) (rest : List Char)
    (groups : List String) (h : matchHere re rest = some groups) :
    ∀ before : List Char, ∃ found, searchFrom re (before ++ rest) = some found := by
  intro before
  induction before with
  | nil => exact ⟨groups, searchFrom_of_matchHere re rest groups h⟩
  | cons c cs ih =>
    cases hm : matchHere re (c :: (cs ++ rest)) with
    | some g => exact ⟨g, by simp [searchFrom, hm]⟩
    | none =>
      obtain ⟨found, hf⟩ := ih
      exact ⟨found, by simp [searchFrom, hm, hf]⟩

theorem doom1_complete (s : List Char) (h : occursIn isExMy s) :
    ∃ found, searchFrom doom1MapNameRegex s = some found := by
  obtain ⟨before, part, after, ⟨episode, map, he, hm, hp⟩, hs⟩ := h
  have hshape : s = before ++ ('E' :: episode ++ 'M' :: map ++ after) := by
    rw [hs, hp]
    simp
  rw [hshape]
  exact searchFrom_some_of_suffix _ _ _ (doom1_matchHere_of_occurrence episode map after he hm)
    before

theorem doom2_complete (s : List Char) (h : occursIn isMAPnn s) :
    ∃ found, searchFrom doom2MapNameRegex s = some found := by
  obtain ⟨before, part, after, ⟨number, hn, hp⟩, hs⟩ := h
  have hshape : s = before ++ ('M' :: 'A' :: 'P' :: number ++ after) := by
    rw [hs, hp]
    simp
  rw [hshape]
  exact searchFrom_some_of_suffix _ _ _ (doom2_matchHere_of_occurrence number after hn) before

theorem not_occursIn_isExMy_of_no_match (s : List Char)
    (h : searchFrom doom1MapNameRegex s = none) : ¬ occursIn isExMy s := by
  intro ho
  obtain ⟨found, hf⟩ := doom1_complete s ho
  rw [h] at hf
  cases hf

theorem not_occursIn_isMAPnn_of_no_match (s : List Char)
    (h : searchFrom doom2MapNameRegex s = none) : ¬ occursIn isMAPnn s := by
  intro ho
  obtain ⟨found, hf⟩ := doom2_complete s ho
  rw [h] at hf
  cases hf

theorem doom1_sound_groups (s : List Char) (groups : List String)
    (h : searchFrom doom1MapNameRegex s = some groups) :
    ∃ before episode map after, isDigits episode ∧ isDigits map ∧
      s = before ++ ('E' :: episode ++ 'M' :: map) ++ after ∧
      groups = [String.mk episode, String.mk map] := by
  obtain ⟨before, rest, hs, hm⟩ := searchFrom_sound _ _ _ h
  obtain ⟨r1, hr1, hm1⟩ := matchHere_lit_sound _ _ _ _ hm
  obtain ⟨episode, r2, g2, hep, hr2, hm2, hg2⟩ := matchHere_digits_sound _ _ _ hm1
  obtain ⟨r3, hr3, hm3⟩ := matchHere_lit_sound _ _ _ _ hm2
  obtain ⟨map, r4, g4, hmp, hr4, hm4, hg4⟩ := matchHere_digits_sound _ _ _ hm3
  have hnil : g4 = [] := by
    simpa [matchHere] using hm4.symm
  refine ⟨before, episode, map, r4, hep, hmp, ?_, ?_⟩
  · rw [hs, hr1, hr2, hr3, hr4]
    simp
  · rw [hg2, hg4, hnil]

theorem doom2_sound_groups (s : List Char) (groups : List String)
    (h : searchFrom doom2MapNameRegex s = some groups) :
    ∃ before number after, isDigits number ∧
      s = before ++ ('M' :: 'A' :: 'P' :: number) ++ after ∧
      groups = [String.mk number] := by
  obtain ⟨before, rest, hs, hm⟩ := searchFrom_sound _ _ _ h
  obtain ⟨r1, hr1, hm1⟩ := matchHere_lit_sound _ _ _ _ hm
  obtain ⟨r2, hr2, hm2⟩ := matchHere_lit_sound _ _ _ _ hm1
  obtain ⟨r3, hr3, hm3⟩ := matchHere_lit_sound _ _ _ _ hm2
  obtain ⟨number, r4, g4, hn, hr4, hm4, hg4⟩ := matchHere_digits_sound _ _ _ hm3
  have hnil : g4 = [] := by
    simpa [matchHere] using hm4.symm
  refine ⟨before, number, r4, hn, ?_, ?_⟩
  · rw [hs, hr1, hr2, hr3, hr4]
    simp
  · rw [hg4, hnil]

/-- C22, amended: for a family of the numbered-map style the two branches are taken
whenever the form occurs somewhere in the map name, the whole name need not have it. A
name in which a part `E<digits>M<digits>` occurs gets `["-warp", episode, map]` with the
digit groups of such a part; a name without such a part in which a part `MAP<digits>`
occurs gets `["-warp", number]` with the digit group of such a part; only a name in which
neither form occurs gets the positional `["-warp", decimal (mapIdx + 1)]`. -/
theorem getMapArgs_warp_by_occurrence (IS_WINDOWS : Bool) (et : EngineTraits)
    (traits : EngineFamilyTraits) (mapIdx : Int) (mapName : String)
    (hApp : et.hasAppInfo = true) (hTraits : et.familyTraits IS_WINDOWS = some traits)
    (hStyle : traits.mapParamStyle = MapParamStyle.Warp) (hName : mapName ≠ "") :
    (occursIn isExMy mapName.data →
      ∃ before episode map after, isDigits episode ∧ isDigits map ∧
        mapName.data = before ++ ('E' :: episode ++ 'M' :: map) ++ after ∧
        et.getMapArgs IS_WINDOWS mapIdx mapName
          = some ["-warp", String.mk episode, String.mk map]) ∧
    (¬ occursIn isExMy mapName.data → occursIn isMAPnn mapName.data →
      ∃ before number after, isDigits number ∧
        mapName.data = before ++ ('M' :: 'A' :: 'P' :: number) ++ after ∧
        et.getMapArgs IS_WINDOWS mapIdx mapName = some ["-warp", String.mk number]) ∧
    (¬ occursIn isExMy mapName.data → ¬ occursIn isMAPnn mapName.data →
      isInt (mapIdx + 1) →
      et.getMapArgs IS_WINDOWS mapIdx mapName = some ["-warp", toString (mapIdx + 1)]) := by
  have hbody := getMapArgs_warp_style IS_WINDOWS et traits mapIdx mapName hApp hTraits hStyle
    (length_ne_zero_of_ne_empty mapName hName)
  have hnone1 : ¬ occursIn isExMy mapName.data →
      QRegularExpression_match doom1MapNameRegex mapName = none := by
    intro hno
    cases hm : QRegularExpression_match doom1MapNameRegex mapName with
    | none => rfl
    | some groups => exact absurd (doom1_sound _ _ hm) hno
  refine ⟨?_, ?_, ?_⟩
  · intro hocc
    obtain ⟨found, hf⟩ := doom1_complete _ hocc
    obtain ⟨before, episode, map, after, he, hm, hs, hg⟩ := doom1_sound_groups _ _ hf
    refine ⟨before, episode, map, after, he, hm, hs, ?_⟩
    have hq : QRegularExpression_match doom1MapNameRegex mapName = some found := hf
    rw [hbody, hq, hg]
    rfl
  · intro hno hocc
    obtain ⟨found, hf⟩ := doom2_complete _ hocc
    obtain ⟨before, number, after, hn, hs, hg⟩ := doom2_sound_groups _ _ hf
    refine ⟨before, number, after, hn, hs, ?_⟩
    have hq : QRegularExpression_match doom2MapNameRegex mapName = some found := hf
    rw [hbody, hnone1 hno, hq, hg]
    rfl
  · intro hno1 hno2 hNext
    have h2 : QRegularExpression_match doom2MapNameRegex mapName = none := by
      cases hm : QRegularExpression_match doom2MapNameRegex mapName with
      | none => rfl
      | some groups => exact absurd (doom2_sound _ _ hm) hno2
    rw [hbody, hnone1 hno1, h2]
    simp only [QString_number, wrapInt_of_isInt _ hNext]

theorem getMapArgs_warp_by_occurrence_witness :
    (∃ before episode map after, isDigits episode ∧ isDigits map ∧
        "CAVE1M2X".data = before ++ ('E' :: episode ++ 'M' :: map) ++ after ∧
        ((EngineTraits.init.loadAppInfo "/usr/games/prboom-plus" ⟨0, "", ""⟩
            ⟨"", "", ⟨0, 0, 0⟩⟩ "prboom-plus").assignFamilyTraits
            EngineFamily.PrBoom).getMapArgs false 3 "CAVE1M2X"
          = some ["-warp", String.mk episode, String.mk map]) ∧
    (∃ before number after, isDigits number ∧
        "TITLEMAP1".data = before ++ ('M' :: 'A' :: 'P' :: number) ++ after ∧
        ((EngineTraits.init.loadAppInfo "/usr/games/prboom-plus" ⟨0, "", ""⟩
            ⟨"", "", ⟨0, 0, 0⟩⟩ "prboom-plus").assignFamilyTraits
            EngineFamily.PrBoom).getMapArgs false 3 "TITLEMAP1"
          = some ["-warp", String.mk number]) ∧
    ((EngineTraits.init.loadAppInfo "/usr/games/prboom-plus" ⟨0, "", ""⟩
        ⟨"", "", ⟨0, 0, 0⟩⟩ "prboom-plus").assignFamilyTraits
        EngineFamily.PrBoom).getMapArgs false 3 "TITLESCREEN" = some ["-warp", "4"] :=
  ⟨(getMapArgs_warp_by_occurrence false _
      ⟨MapParamStyle.Warp, CompatLevelStyle.PrBoom, "-save", false, false⟩ 3 "CAVE1M2X"
      (by decide) (by decide) (by decide) (by decide)).1
      ⟨['C', 'A', 'V'], ['E', '1', 'M', '2'], ['X'],
        ⟨['1'], ['2'], by decide, by decide, rfl⟩, rfl⟩,
   (getMapArgs_warp_by_occurrence false _
      ⟨MapParamStyle.Warp, CompatLevelStyle.PrBoom, "-save", false, false⟩ 3 "TITLEMAP1"
      (by decide) (by decide) (by decide) (by decide)).2.1
      (not_occursIn_isExMy_of_no_match _ (by decide))
      ⟨['T', 'I', 'T', 'L', 'E'], ['M', 'A', 'P', '1'], [],
        ⟨['1'], by decide, rfl⟩, rfl⟩,
   (getMapArgs_warp_by_occurrence false _
      ⟨MapParamStyle.Warp, CompatLevelStyle.PrBoom, "-save", false, false⟩ 3 "TITLESCREEN"
      (by decide) (by decide) (by decide) (by decide)).2.2
      (not_occursIn_isExMy_of_no_match _ (by decide))
      (not_occursIn_isMAPnn_of_no_match _ (by decide)) (by decide)⟩

/-! ## The numbering of the catalogs -/

theorem exists_rest_of_isPrefixOf (start s : String)
    (h : start.data.isPrefixOf s.data = true) : ∃ rest : String, s = start ++ rest := by
  obtain ⟨t, ht⟩ := List.isPrefixOf_iff_prefix.mp h
  refine ⟨String.mk t, ?_⟩
  apply String.ext
  rw [String.data_append, ht]

theorem catalog_numbered (catalog : List String) (n : Nat)
    (h : ∀ i < n, (catalog[i]?).map
      (fun s => (toString i ++ " ").data.isPrefixOf s.data) = some true) :
    ∀ i < n, ∃ rest : String, catalog[i]? = some (toString i ++ " " ++ rest) := by
  intro i hi
  have hi2 := h i hi
  cases hc : catalog[i]? with
  | none => simp [hc] at hi2
  | some s =>
    simp only [hc, Option.map_some', Option.some.injEq] at hi2
    obtain ⟨rest, hr⟩ := exists_rest_of_isPrefixOf _ _ hi2
    exact ⟨rest, by rw [hr]⟩

/-- C23: in each catalog the position is the numeric level: for the ZDoom style and every
`i` below 10, and for the PrBoom style and every `i` below 22, the description at position
`i` of `getCompatLevels` is the decimal numeral of `i`, a space, and some rest. -/
theorem getCompatLevels_numbered (i : Nat) :
    (i < 10 → ∃ rest : String,
      (getCompatLevels CompatLevelStyle.ZDoom)[i]? = some (toString i ++ " " ++ rest)) ∧
    (i < 22 → ∃ rest : String,
      (getCompatLevels CompatLevelStyle.PrBoom)[i]? = some (toString i ++ " " ++ rest)) := by
  constructor
  · exact catalog_numbered (getCompatLevels CompatLevelStyle.ZDoom) 10 (by decide) i
  · exact catalog_numbered (getCompatLevels CompatLevelStyle.PrBoom) 22 (by decide) i

theorem getCompatLevels_numbered_witness :
    (∃ rest : String,
      (getCompatLevels CompatLevelStyle.ZDoom)[7]? = some (toString 7 ++ " " ++ rest)) ∧
    (∃ rest : String,
      (getCompatLevels CompatLevelStyle.PrBoom)[21]? = some (toString 21 ++ " " ++ rest)) :=
  ⟨(getCompatLevels_numbered 7).1 (by decide), (getCompatLevels_numbered 21).2 (by decide)⟩

/-! ## Monotonicity of the version gate -/

theorem version_le_trans (a b c : Version) (hab : a ≤ b) (hbc : b ≤ c) : a ≤ c := by
  have h1 : a.major < b.major ∨ (a.major = b.major ∧
      (a.minor < b.minor ∨ (a.minor = b.minor ∧ a.patch ≤ b.patch))) := hab
  have h2 : b.major < c.major ∨ (b.major = c.major ∧
      (b.minor < c.minor ∨ (b.minor = c.minor ∧ b.patch ≤ c.patch))) := hbc
  show a.major < c.major ∨ (a.major = c.major ∧
      (a.minor < c.minor ∨ (a.minor = c.minor ∧ a.patch ≤ c.patch)))
  omega

theorem append_savegames_ne (dir : String) : dir ++ "/savegames" ≠ dir := by
  intro h
  have hl := congrArg String.length h
  rw [String.length_append] at hl
  have : "/savegames".length = 10 := by decide
  omega

theorem isGZDoomVersionOrLater_mono (versionIsValid : Version → Bool) (appInfo : AppInfo)
    (traits : Option (Fin 4)) (a b : Version) (hab : a ≤ b)
    (hb : (EngineTraits.mk (some appInfo) traits).isGZDoomVersionOrLater versionIsValid b
      = some true) :
    (EngineTraits.mk (some appInfo) traits).isGZDoomVersionOrLater versionIsValid a
      = some true := by
  by_cases hmeta : appInfo.versionInfo.appName ≠ "" ∧
      versionIsValid appInfo.versionInfo.version = true
  · rw [isGZDoomVersionOrLater_with_metadata _ _ _ _ hmeta.1 hmeta.2] at hb
    rw [isGZDoomVersionOrLater_with_metadata _ _ _ _ hmeta.1 hmeta.2]
    simp only [Option.some.injEq, decide_eq_true_eq] at hb
    simp only [Option.some.injEq, decide_eq_true_eq]
    exact ⟨hb.1, version_le_trans _ _ _ hab hb.2⟩
  · rw [isGZDoomVersionOrLater_without_metadata _ _ _ _ hmeta] at hb
    rw [isGZDoomVersionOrLater_without_metadata _ _ _ _ hmeta]
    exact hb

/-- C24: the version gate is antitone in its threshold: for every loaded identity and all
versions `a ≤ b`, `isGZDoomVersionOrLater b` implies `isGZDoomVersionOrLater a`. Hence, on
every host, when `getDefaultSaveDir` is the data directory followed by "/savegames" the
style of `baseDirStyleForSaveFiles` is `SaveDir`, and when the style is `WorkingDir` the
save directory is the data directory itself. -/
theorem version_gate_antitone (IS_WINDOWS : Bool) (host : Host)
    (versionIsValid : Version → Bool) (appInfo : AppInfo) (traits : Option (Fin 4))
    (a b : Version) :
    (a ≤ b →
      (EngineTraits.mk (some appInfo) traits).isGZDoomVersionOrLater versionIsValid b
        = some true →
      (EngineTraits.mk (some appInfo) traits).isGZDoomVersionOrLater versionIsValid a
        = some true) ∧
    ((EngineTraits.mk (some appInfo) traits).getDefaultSaveDir IS_WINDOWS host versionIsValid
        = ((EngineTraits.mk (some appInfo) traits).getDefaultDataDir IS_WINDOWS host
            versionIsValid).map (fun dataDir => dataDir ++ "/savegames") →
      (EngineTraits.mk (some appInfo) traits).baseDirStyleForSaveFiles versionIsValid
        = some EngineTraits.SaveBaseDir.SaveDir) ∧
    ((EngineTraits.mk (some appInfo) traits).baseDirStyleForSaveFiles versionIsValid
        = some EngineTraits.SaveBaseDir.WorkingDir →
      (EngineTraits.mk (some appInfo) traits).getDefaultSaveDir IS_WINDOWS host versionIsValid
        = (EngineTraits.mk (some appInfo) traits).getDefaultDataDir IS_WINDOWS host
            versionIsValid) := by
  obtain ⟨dataDir, hd⟩ := getDefaultDataDir_total IS_WINDOWS host versionIsValid appInfo traits
  obtain ⟨later11, h11⟩ := isGZDoomVersionOrLater_total versionIsValid appInfo traits ⟨4, 11, 0⟩
  obtain ⟨later9, h9⟩ := isGZDoomVersionOrLater_total versionIsValid appInfo traits ⟨4, 9, 0⟩
  have hsave := getDefaultSaveDir_loaded IS_WINDOWS host versionIsValid appInfo traits later11 h11
  have hle : (⟨4, 9, 0⟩ : Version) ≤ ⟨4, 11, 0⟩ := by decide
  have hgate : later11 = true → later9 = true := by
    intro ht
    rw [ht] at h11
    have := isGZDoomVersionOrLater_mono versionIsValid appInfo traits _ _ hle h11
    rw [h9] at this
    exact Option.some.inj this
  have hstyle : (EngineTraits.mk (some appInfo) traits).baseDirStyleForSaveFiles versionIsValid
      = some (if later9 = true then EngineTraits.SaveBaseDir.SaveDir
          else EngineTraits.SaveBaseDir.WorkingDir) := by
    simp only [EngineTraits.baseDirStyleForSaveFiles, h9]
    split <;> rfl
  refine ⟨isGZDoomVersionOrLater_mono versionIsValid appInfo traits a b, ?_, ?_⟩
  · intro hnested
    rw [hsave, hd] at hnested
    simp only [Option.map_some', Option.some.injEq] at hnested
    have ht : later11 = true := by
      cases later11 with
      | true => rfl
      | false =>
        simp only [Bool.false_eq_true, if_false] at hnested
        exact absurd hnested.symm (append_savegames_ne dataDir)
    rw [hstyle, if_pos (hgate ht)]
  · intro hworking
    rw [hstyle] at hworking
    have hf9 : later9 = false := by
      cases later9 with
      | false => rfl
      | true =>
        simp only [if_true, Option.some.injEq] at hworking
        revert hworking
        decide
    have hf11 : later11 = false := by
      cases later11 with
      | false => rfl
      | true =>
        have := hgate rfl
        rw [hf9] at this
        cases this
    rw [hsave, hd, hf11]
    simp

theorem version_gate_antitone_witness :
    ((EngineTraits.mk (some (exampleGZDoomOnWindows ⟨4, 12, 1⟩)) none).isGZDoomVersionOrLater
        exampleVersionIsValid ⟨4, 9, 0⟩ = some true) ∧
    ((EngineTraits.mk (some (exampleGZDoomOnWindows ⟨4, 12, 1⟩)) none).baseDirStyleForSaveFiles
        exampleVersionIsValid = some EngineTraits.SaveBaseDir.SaveDir) ∧
    ((EngineTraits.mk (some (exampleGZDoomOnWindows ⟨4, 8, 0⟩)) none).getDefaultSaveDir true
        (exampleWindowsHost false) exampleVersionIsValid
      = (EngineTraits.mk (some (exampleGZDoomOnWindows ⟨4, 8, 0⟩)) none).getDefaultDataDir true
        (exampleWindowsHost false) exampleVersionIsValid) :=
  ⟨(version_gate_antitone true (exampleWindowsHost false) exampleVersionIsValid
      (exampleGZDoomOnWindows ⟨4, 12, 1⟩) none ⟨4, 9, 0⟩ ⟨4, 11, 0⟩).1 (by decide) (by decide),
   (version_gate_antitone true (exampleWindowsHost false) exampleVersionIsValid
      (exampleGZDoomOnWindows ⟨4, 12, 1⟩) none ⟨4, 9, 0⟩ ⟨4, 11, 0⟩).2.1 (by decide),
   (version_gate_antitone true (exampleWindowsHost false) exampleVersionIsValid
      (exampleGZDoomOnWindows ⟨4, 8, 0⟩) none ⟨4, 9, 0⟩ ⟨4, 11, 0⟩).2.2 (by decide)⟩

end DoomRunner
